import Mathlib

/-!
Verification of the failure-analysis enrichment pipeline of the
playwright-bdd-automation repository, the script
`.github/scripts/llm-failure-analysis.js`.

The script scans a flat results directory for failed Allure test records,
builds a prompt per record, calls a model over HTTP or through a local CLI,
normalizes the response, writes one analysis text file per record and links
it into the record file as an attachment.  The development below gives an
executable shallow embedding of that script: records are the structured
documents `JSON.parse` produces (an ordered key-value tree reordered the way
JS object property order mandates), texts are serialized with the exact
`JSON.stringify(value, null, 2)` layout the script uses, and each function
of the script becomes a Lean function named after it, with the source lines
it embeds noted in its doc comment.

Modelling boundary (noted where used): numerals are exact integers (the
fractional part of JS numbers is not modelled), strings are sequences of
Unicode scalars (lone UTF-16 surrogates are not modelled), and an object
document is a field list, so duplicate keys inside one textual object (which
`JSON.parse` would collapse) stay distinct in the model.
-/

namespace LlmFailureAnalysis

/-- A structured document as produced by `JSON.parse` and consumed by
`JSON.stringify`: the value grammar the script exchanges with record files
and with the model service.  Numerals are modelled as exact integers. -/
inductive Json where
  | null
  | bool (b : Bool)
  | num (n : Int)
  | str (s : String)
  | arr (elems : List Json)
  | obj (fields : List (String × Json))

/-- The opening curly bracket character. -/
def obraceChar : Char := Char.ofNat 123

/-- The closing curly bracket character. -/
def cbraceChar : Char := Char.ofNat 125

/-- The backspace character. -/
def bsChar : Char := Char.ofNat 8

/-- The form-feed character. -/
def ffChar : Char := Char.ofNat 12

/-- JS truthiness of a parsed value: null, false, 0 and the empty string are
falsy; every other value, arrays and objects included, is truthy. -/
def truthyJson : Json → Bool
  | .null => false
  | .bool b => b
  | .num n => decide (n ≠ 0)
  | .str s => decide (s ≠ "")
  | .arr _ => true
  | .obj _ => true

/-- Decimal digit character for a value below ten. -/
def decDigit (n : Nat) : Char := Char.ofNat (48 + n % 10)

/-- Decimal digit characters, least significant first; the first argument is
recursion fuel, in excess of the digit count whenever it exceeds the value. -/
def decAux : Nat → Nat → List Char
  | 0, _ => []
  | f + 1, n => if n < 10 then [decDigit n] else decDigit (n % 10) :: decAux f (n / 10)

/-- Decimal digit characters of a natural number, least significant first. -/
def decRev (n : Nat) : List Char := decAux (n + 1) n

/-- Decimal numeral of a natural number, most significant digit first. -/
def decChars (n : Nat) : List Char := (decRev n).reverse

/-- Decimal numeral of a natural number as text. -/
def natStr (n : Nat) : String := String.mk (decChars n)

/-- Decimal numeral of an integer: a minus sign on negative values, then the
digits, as `JSON.stringify` and JS number-to-string conversion print exact
integers. -/
def serInt (i : Int) : List Char :=
  if i < 0 then '-' :: decChars i.natAbs else decChars i.natAbs

/-- Decimal numeral of an integer as text. -/
def intStr (i : Int) : String := String.mk (serInt i)

/-- Lowercase hexadecimal digit character for a value below sixteen. -/
def hexDigitChar (n : Nat) : Char :=
  if n < 10 then Char.ofNat (48 + n) else Char.ofNat (87 + n)

/-- Value of a hexadecimal digit character, upper or lower case. -/
def hexVal (c : Char) : Option Nat :=
  if '0' ≤ c ∧ c ≤ '9' then some (c.toNat - 48)
  else if 'a' ≤ c ∧ c ≤ 'f' then some (c.toNat - 87)
  else if 'A' ≤ c ∧ c ≤ 'F' then some (c.toNat - 55)
  else none

/-- Escape one character the way `JSON.stringify` quotes strings: the two
metacharacters, the five named control escapes, a hexadecimal escape for the
other control characters, and every other character verbatim. -/
def escChar (c : Char) : List Char :=
  if c = '"' then ['\\', '"']
  else if c = '\\' then ['\\', '\\']
  else if c = bsChar then ['\\', 'b']
  else if c = ffChar then ['\\', 'f']
  else if c = '\n' then ['\\', 'n']
  else if c = '\r' then ['\\', 'r']
  else if c = '\t' then ['\\', 't']
  else if c.toNat < 32 then
    ['\\', 'u', '0', '0', hexDigitChar (c.toNat / 16), hexDigitChar (c.toNat % 16)]
  else [c]

/-- Escape a character sequence for a serialized string literal. -/
def escChars : List Char → List Char
  | [] => []
  | c :: cs => escChar c ++ escChars cs

/-- Serialized string literal: quote, escaped body, quote. -/
def quoteChars (cs : List Char) : List Char := '"' :: escChars cs ++ ['"']

/-- Character sequence of a fixed keyword. -/
def litChars (s : String) : List Char := s.data

mutual

/-- JS string conversion of a parsed value, as a template literal or the
`String` function or `+` produce it: strings verbatim, numbers in decimal,
an array joined by commas with null elements blank, an object as the fixed
object tag. -/
def jsString : Json → String
  | .null => "null"
  | .bool true => "true"
  | .bool false => "false"
  | .num n => intStr n
  | .str s => s
  | .arr xs => jsJoinComma xs
  | .obj _ => "[object Object]"

/-- Elements of an array joined by commas, null elements blank, as
`Array.prototype.toString` does. -/
def jsJoinComma : List Json → String
  | [] => ""
  | [.null] => ""
  | [x] => jsString x
  | .null :: xs => "," ++ jsJoinComma xs
  | x :: xs => jsString x ++ "," ++ jsJoinComma xs

end

/-! ### JS object property order

`JSON.parse` creates object properties in textual order, except that keys
that are canonical array indices (digit strings without a leading zero, of
value at most 2^32 - 2) come first, in ascending numeric order.  Every
object the script manipulates has been built by `JSON.parse`, so the parser
below applies this reordering at each object it constructs. -/

/-- Numeric value of a digit string, most significant first. -/
def digitsVal (cs : List Char) : Nat :=
  cs.foldl (fun acc c => acc * 10 + (c.toNat - 48)) 0

/-- The array-index reading of a key: a nonempty digit string without a
leading zero (other than the single digit zero) of value at most 2^32 - 2. -/
def arrayIndexKey (s : String) : Option Nat :=
  match s.data with
  | [] => none
  | [c] => if c.isDigit then some (c.toNat - 48) else none
  | c :: cs =>
    if c.isDigit ∧ c ≠ '0' ∧ cs.all Char.isDigit then
      if digitsVal (c :: cs) ≤ 4294967294 then some (digitsVal (c :: cs)) else none
    else none

/-- Comparison of indexed fields by their numeric key. -/
def idxLe (p q : Nat × (String × Json)) : Prop := p.1 ≤ q.1

instance : DecidableRel idxLe := fun p q => inferInstanceAs (Decidable (p.1 ≤ q.1))

instance : IsTotal (Nat × (String × Json)) idxLe := ⟨fun p q => Nat.le_total p.1 q.1⟩

instance : IsTrans (Nat × (String × Json)) idxLe := ⟨fun _ _ _ => Nat.le_trans⟩

/-- The fields with array-index keys, annotated with their numeric key. -/
def idxAnn (fs : List (String × Json)) : List (Nat × (String × Json)) :=
  fs.filterMap fun kv => (arrayIndexKey kv.1).map fun n => (n, kv)

/-- The JS property order of a field list: fields with array-index keys
first, in ascending numeric order (stably), then the remaining fields in
their given order. -/
def jsReorder (fs : List (String × Json)) : List (String × Json) :=
  ((idxAnn fs).insertionSort idxLe).map Prod.snd
    ++ fs.filter fun kv => (arrayIndexKey kv.1).isNone

mutual

/-- The parse-normal form of a document: every object reordered to JS
property order, recursively.  `parseV` below only ever produces fixed
points of this map. -/
def canonize : Json → Json
  | .obj fs => .obj (jsReorder (canonFields fs))
  | .arr xs => .arr (canonList xs)
  | .null => .null
  | .bool b => .bool b
  | .num n => .num n
  | .str s => .str s

/-- `canonize` on each element. -/
def canonList : List Json → List Json
  | [] => []
  | x :: xs => canonize x :: canonList xs

/-- `canonize` on each field value. -/
def canonFields : List (String × Json) → List (String × Json)
  | [] => []
  | (k, v) :: fs => (k, canonize v) :: canonFields fs

end

/-! ### The serializer: `JSON.stringify(value, null, 2)`

The script persists records (line 198 of the source), pretty-prints parsed
structures in its normalization (lines 153, 158, 166, 172, 177), always
with a two-space indent.  `serInd` renders at a given depth. -/

/-- A newline followed by the two-space indentation of the given depth. -/
def nlInd (d : Nat) : List Char := '\n' :: List.replicate (2 * d) ' '

mutual

/-- Serialization of a value at nesting depth `d`, exactly as
`JSON.stringify(value, null, 2)` lays it out. -/
def serInd : Nat → Json → List Char
  | _, .null => litChars "null"
  | _, .bool true => litChars "true"
  | _, .bool false => litChars "false"
  | _, .num n => serInt n
  | _, .str s => quoteChars s.data
  | _, .arr [] => ['[', ']']
  | d, .arr (x :: xs) => '[' :: (nlInd (d + 1) ++ serInd (d + 1) x ++ serArrT (d + 1) xs)
  | _, .obj [] => [obraceChar, cbraceChar]
  | d, .obj ((k, v) :: fs) =>
    obraceChar :: (nlInd (d + 1) ++ quoteChars k.data
      ++ ':' :: ' ' :: serInd (d + 1) v ++ serObjT (d + 1) fs)

/-- Continuation of a nonempty array at element depth `d`: a comma, newline
and indented element for each further element, then the closer on the
parent indentation. -/
def serArrT (d : Nat) : List Json → List Char
  | [] => nlInd (d - 1) ++ [']']
  | x :: xs => ',' :: (nlInd d ++ serInd d x ++ serArrT d xs)

/-- Continuation of a nonempty object at field depth `d`. -/
def serObjT (d : Nat) : List (String × Json) → List Char
  | [] => nlInd (d - 1) ++ [cbraceChar]
  | (k, v) :: fs =>
    ',' :: (nlInd d ++ quoteChars k.data ++ ':' :: ' ' :: serInd d v ++ serObjT d fs)

end

/-- `JSON.stringify(j, null, 2)`. -/
def stringify2 (j : Json) : String := String.mk (serInd 0 j)

/-! ### The parser: `JSON.parse` -/

/-- JSON whitespace. -/
def isWsChar (c : Char) : Bool := c = ' ' || c = '\n' || c = '\t' || c = '\r'

/-- Drop leading JSON whitespace. -/
def skipWs : List Char → List Char
  | [] => []
  | c :: cs => if isWsChar c then skipWs cs else c :: cs

/-- Undo a one-character escape (the hexadecimal form is handled at its call
site in `parseStrBody`). -/
def unescChar (c : Char) : Option Char :=
  if c = '"' then some '"'
  else if c = '\\' then some '\\'
  else if c = '/' then some '/'
  else if c = 'b' then some bsChar
  else if c = 'f' then some ffChar
  else if c = 'n' then some '\n'
  else if c = 'r' then some '\r'
  else if c = 't' then some '\t'
  else none

/-- Parse the body of a string literal after its opening quote: named and
hexadecimal escapes are decoded, an unescaped control character is refused
as `JSON.parse` refuses it, and the remainder after the closing quote is
returned with the content. -/
def parseStrBody : List Char → Option (List Char × List Char)
  | [] => none
  | c :: cs =>
    if c = '"' then some ([], cs)
    else if c = '\\' then
      match cs with
      | 'u' :: a :: b :: c2 :: d :: cs2 =>
        match hexVal a, hexVal b, hexVal c2, hexVal d with
        | some va, some vb, some vc, some vd =>
          (parseStrBody cs2).map fun p =>
            (Char.ofNat (((va * 16 + vb) * 16 + vc) * 16 + vd) :: p.1, p.2)
        | _, _, _, _ => none
      | e :: cs2 =>
        match unescChar e with
        | some d => (parseStrBody cs2).map fun p => (d :: p.1, p.2)
        | none => none
      | [] => none
    else if c.toNat < 32 then none
    else (parseStrBody cs).map fun p => (c :: p.1, p.2)

/-- Consume a maximal run of decimal digits, accumulating their value. -/
def parseDigits : List Char → Nat → Nat × List Char
  | [], acc => (acc, [])
  | c :: cs, acc =>
    if c.isDigit then parseDigits cs (acc * 10 + (c.toNat - 48))
    else (acc, c :: cs)

mutual

/-- Parse one value after optional leading whitespace; `fuel` bounds the
recursion depth and is in excess of the input length at every call from
`parse`.  Each object is built in JS property order (`jsReorder`), as
`JSON.parse` creates its properties. -/
def parseV : Nat → List Char → Option (Json × List Char)
  | 0, _ => none
  | f + 1, cs0 =>
    match skipWs cs0 with
    | [] => none
    | c :: cs =>
      if c.isDigit then
        some (.num (Int.ofNat (parseDigits (c :: cs) 0).1), (parseDigits (c :: cs) 0).2)
      else if c = '-' then
        match cs with
        | d :: cs2 =>
          if d.isDigit then
            some (.num (-Int.ofNat (parseDigits (d :: cs2) 0).1),
              (parseDigits (d :: cs2) 0).2)
          else none
        | [] => none
      else if c = 'n' then
        match cs with
        | 'u' :: 'l' :: 'l' :: r => some (.null, r)
        | _ => none
      else if c = 't' then
        match cs with
        | 'r' :: 'u' :: 'e' :: r => some (.bool true, r)
        | _ => none
      else if c = 'f' then
        match cs with
        | 'a' :: 'l' :: 's' :: 'e' :: r => some (.bool false, r)
        | _ => none
      else if c = '"' then
        (parseStrBody cs).map fun p => (.str (String.mk p.1), p.2)
      else if c = '[' then
        if (skipWs cs).head? = some ']' then some (.arr [], (skipWs cs).tail)
        else
          (parseV f cs).bind fun vr =>
            (parseItems f vr.2).map fun lr => (.arr (vr.1 :: lr.1), lr.2)
      else if c = obraceChar then
        if (skipWs cs).head? = some cbraceChar then some (.obj [], (skipWs cs).tail)
        else if (skipWs cs).head? = some '"' then
          (parseStrBody (skipWs cs).tail).bind fun kr =>
            match skipWs kr.2 with
            | ':' :: r3 =>
              (parseV f r3).bind fun vr =>
                (parseFields f vr.2).map fun fr =>
                  (.obj (jsReorder ((String.mk kr.1, vr.1) :: fr.1)), fr.2)
            | _ => none
        else none
      else none

/-- Parse the continuation of a nonempty array: after optional whitespace, a
comma and a value, or the closing bracket. -/
def parseItems : Nat → List Char → Option (List Json × List Char)
  | 0, _ => none
  | f + 1, cs0 =>
    match skipWs cs0 with
    | [] => none
    | c :: cs =>
      if c = ']' then some ([], cs)
      else if c = ',' then
        (parseV f cs).bind fun vr =>
          (parseItems f vr.2).map fun lr => (vr.1 :: lr.1, lr.2)
      else none

/-- Parse the continuation of a nonempty object, analogous to `parseItems`. -/
def parseFields : Nat → List Char → Option (List (String × Json) × List Char)
  | 0, _ => none
  | f + 1, cs0 =>
    match skipWs cs0 with
    | [] => none
    | c :: cs =>
      if c = cbraceChar then some ([], cs)
      else if c = ',' then
        if (skipWs cs).head? = some '"' then
          (parseStrBody (skipWs cs).tail).bind fun kr =>
            match skipWs kr.2 with
            | ':' :: r3 =>
              (parseV f r3).bind fun vr =>
                (parseFields f vr.2).map fun fr =>
                  ((String.mk kr.1, vr.1) :: fr.1, fr.2)
            | _ => none
        else none
      else none

end

/-- `JSON.parse`: the whole text, up to surrounding whitespace, must be one
well-formed value. -/
def parse (s : String) : Option Json :=
  match parseV (s.data.length + 1) s.data with
  | some (j, r) => if skipWs r = [] then some j else none
  | none => none

/-! ### Codec lemmas -/

/-- True when the input does not start with a decimal digit, so a numeral
directly before it cannot absorb part of it. -/
def noDigitHead : List Char → Bool
  | [] => true
  | c :: _ => !c.isDigit

theorem decAux_congr : ∀ f g n : Nat, n < f → n < g → decAux f n = decAux g n := by
  intro f
  induction f with
  | zero => intro g n h _; omega
  | succ f ih =>
    intro g n h₁ h₂
    cases g with
    | zero => omega
    | succ g =>
      simp only [decAux]
      by_cases h10 : n < 10
      · simp [h10]
      · simp only [if_neg h10]
        congr 1
        exact ih g (n / 10) (by omega) (by omega)

theorem decRev_eq (n : Nat) :
    decRev n = if n < 10 then [decDigit n] else decDigit (n % 10) :: decRev (n / 10) := by
  unfold decRev
  simp only [decAux]
  by_cases h : n < 10
  · simp [h]
  · simp only [if_neg h]
    congr 1
    exact decAux_congr n (n / 10 + 1) (n / 10) (by omega) (by omega)

theorem decDigit_isDigit (n : Nat) : (decDigit n).isDigit = true := by
  unfold decDigit
  have h : n % 10 < 10 := by omega
  set m := n % 10 with hm
  interval_cases m <;> decide

theorem decDigit_val (n : Nat) : (decDigit n).toNat - 48 = n % 10 := by
  unfold decDigit
  have h : n % 10 < 10 := by omega
  set m := n % 10 with hm
  interval_cases m <;> decide

theorem decRev_digits (n : Nat) : ∀ c ∈ decRev n, c.isDigit = true := by
  induction n using Nat.strong_induction_on with
  | _ n ih =>
    rw [decRev_eq]
    by_cases h : n < 10
    · simp [h, decDigit_isDigit]
    · simp only [if_neg h, List.mem_cons]
      intro c hc
      rcases hc with hc | hc
      · subst hc; exact decDigit_isDigit _
      · exact ih (n / 10) (by omega) c hc

theorem decRev_ne_nil (n : Nat) : decRev n ≠ [] := by
  rw [decRev_eq]
  by_cases h : n < 10 <;> simp [h]

theorem parseDigits_stop (cs : List Char) (acc : Nat) (h : noDigitHead cs = true) :
    parseDigits cs acc = (acc, cs) := by
  cases cs with
  | nil => rfl
  | cons c cs' =>
    simp only [noDigitHead, Bool.not_eq_true'] at h
    simp [parseDigits, h]

theorem parseDigits_decChars (n : Nat) : ∀ acc rest,
    parseDigits (decChars n ++ rest) acc
      = parseDigits rest (acc * 10 ^ (decRev n).length + n) := by
  induction n using Nat.strong_induction_on with
  | _ n ih =>
    intro acc rest
    by_cases h : n < 10
    · have hd : decChars n = [decDigit n] := by
        unfold decChars; rw [decRev_eq]; simp [h]
      have hl : (decRev n).length = 1 := by rw [decRev_eq]; simp [h]
      rw [hd, hl]
      simp only [List.cons_append, List.nil_append, parseDigits, decDigit_isDigit, if_pos,
        decDigit_val]
      have hmod : n % 10 = n := Nat.mod_eq_of_lt h
      rw [hmod, pow_one]
      rfl
    · have hd : decChars n = decChars (n / 10) ++ [decDigit (n % 10)] := by
        unfold decChars; rw [decRev_eq]; simp [h]
      have hl : (decRev n).length = (decRev (n / 10)).length + 1 := by
        rw [decRev_eq]; simp [h]
      rw [hd, hl, List.append_assoc, ih (n / 10) (by omega)]
      simp only [List.cons_append, List.nil_append, parseDigits, decDigit_isDigit, if_pos,
        decDigit_val]
      congr 1
      have hdm : 10 * (n / 10) + n % 10 = n := Nat.div_add_mod n 10
      rw [pow_succ]
      ring_nf
      omega

theorem parseDigits_decChars_zero (n : Nat) (rest : List Char) (h : noDigitHead rest = true) :
    parseDigits (decChars n ++ rest) 0 = (n, rest) := by
  rw [parseDigits_decChars, parseDigits_stop _ _ h]
  simp


theorem strMkData (s : String) : String.mk s.data = s := by cases s; rfl

theorem optMapSome {a b : Type} (f : a → b) (x : a) :
    Option.map f (some x) = some (f x) := rfl

theorem optBindSome {a b : Type} (f : a → Option b) (x : a) :
    (some x).bind f = f x := rfl

theorem hexVal_hexDigitChar (n : Nat) (h : n < 16) : hexVal (hexDigitChar n) = some n := by
  interval_cases n <;> decide

theorem parseStrBody_esc : ∀ cs rest : List Char,
    parseStrBody (escChars cs ++ '"' :: rest) = some (cs, rest) := by
  intro cs
  induction cs with
  | nil => intro rest; simp [escChars, parseStrBody.eq_def]
  | cons c cs' ih =>
    intro rest
    simp only [escChars, List.append_assoc]
    by_cases h1 : c = '"'
    · subst h1
      show (parseStrBody (escChars cs' ++ '"' :: rest)).map (fun p => ('"' :: p.1, p.2)) = _
      rw [ih]
      rfl
    · by_cases h2 : c = '\\'
      · subst h2
        show (parseStrBody (escChars cs' ++ '"' :: rest)).map (fun p => ('\\' :: p.1, p.2)) = _
        rw [ih]
        rfl
      · by_cases h3 : c = bsChar
        · subst h3
          show (parseStrBody (escChars cs' ++ '"' :: rest)).map
            (fun p => (bsChar :: p.1, p.2)) = _
          rw [ih]
          rfl
        · by_cases h4 : c = ffChar
          · subst h4
            show (parseStrBody (escChars cs' ++ '"' :: rest)).map
              (fun p => (ffChar :: p.1, p.2)) = _
            rw [ih]
            rfl
          · by_cases h5 : c = '\n'
            · subst h5
              show (parseStrBody (escChars cs' ++ '"' :: rest)).map
                (fun p => ('\n' :: p.1, p.2)) = _
              rw [ih]
              rfl
            · by_cases h6 : c = '\r'
              · subst h6
                show (parseStrBody (escChars cs' ++ '"' :: rest)).map
                  (fun p => ('\x0d' :: p.1, p.2)) = _
                rw [ih]
                rfl
              · by_cases h7 : c = '\t'
                · subst h7
                  show (parseStrBody (escChars cs' ++ '"' :: rest)).map
                    (fun p => ('\t' :: p.1, p.2)) = _
                  rw [ih]
                  rfl
                · by_cases h8 : c.toNat < 32
                  · rw [escChar, if_neg h1, if_neg h2, if_neg h3, if_neg h4, if_neg h5,
                      if_neg h6, if_neg h7, if_pos h8]
                    show (match hexVal '0', hexVal '0', hexVal (hexDigitChar (c.toNat / 16)),
                        hexVal (hexDigitChar (c.toNat % 16)) with
                      | some va, some vb, some vc, some vd =>
                        (parseStrBody (escChars cs' ++ '"' :: rest)).map fun p =>
                          (Char.ofNat (((va * 16 + vb) * 16 + vc) * 16 + vd) :: p.1, p.2)
                      | _, _, _, _ => none) = some (c :: cs', rest)
                    rw [hexVal_hexDigitChar _ (by omega), hexVal_hexDigitChar _ (by omega)]
                    show (parseStrBody (escChars cs' ++ '"' :: rest)).map (fun p =>
                      (Char.ofNat (((0 * 16 + 0) * 16 + c.toNat / 16) * 16 + c.toNat % 16)
                        :: p.1, p.2)) = _
                    rw [ih]
                    have hval : ((0 * 16 + 0) * 16 + c.toNat / 16) * 16 + c.toNat % 16
                        = c.toNat := by omega
                    rw [hval, Char.ofNat_toNat]
                    rfl
                  · rw [escChar, if_neg h1, if_neg h2, if_neg h3, if_neg h4, if_neg h5,
                      if_neg h6, if_neg h7, if_neg h8]
                    simp only [List.cons_append, List.nil_append]
                    rw [parseStrBody.eq_def]
                    simp only [if_neg h1, if_neg h2, if_neg h8, ih]
                    rfl

theorem skipWs_idem (cs : List Char) : skipWs (skipWs cs) = skipWs cs := by
  induction cs with
  | nil => rfl
  | cons c cs' ih =>
    by_cases h : isWsChar c = true
    · simp [skipWs, h, ih]
    · simp [skipWs, h]

theorem skipWs_cons_nws {c : Char} (cs : List Char) (h : isWsChar c = false) :
    skipWs (c :: cs) = c :: cs := by
  rw [skipWs, if_neg (by simp [h])]

theorem skipWs_ws_append (ws X : List Char) (h : ∀ c ∈ ws, isWsChar c = true) :
    skipWs (ws ++ X) = skipWs X := by
  induction ws with
  | nil => rfl
  | cons c ws' ih =>
    rw [List.cons_append, skipWs, if_pos]
    · exact ih (fun d hd => h d (List.mem_cons_of_mem c hd))
    · simp [h c (List.mem_cons_self c ws')]

theorem nlInd_ws (d : Nat) : ∀ c ∈ nlInd d, isWsChar c = true := by
  intro c hc
  unfold nlInd at hc
  rcases List.mem_cons.mp hc with h | h
  · subst h; rfl
  · rw [List.eq_of_mem_replicate h]; rfl

theorem skipWs_nlInd (d : Nat) (X : List Char) : skipWs (nlInd d ++ X) = skipWs X :=
  skipWs_ws_append _ _ (nlInd_ws d)

theorem parseV_skipWs (f : Nat) (cs : List Char) : parseV f (skipWs cs) = parseV f cs := by
  cases f with
  | zero => rfl
  | succ f => simp only [parseV, skipWs_idem]

theorem parseItems_skipWs (f : Nat) (cs : List Char) :
    parseItems f (skipWs cs) = parseItems f cs := by
  cases f with
  | zero => rfl
  | succ f => simp only [parseItems, skipWs_idem]

theorem parseFields_skipWs (f : Nat) (cs : List Char) :
    parseFields f (skipWs cs) = parseFields f cs := by
  cases f with
  | zero => rfl
  | succ f => simp only [parseFields, skipWs_idem]

theorem nws_of_ne {c : Char} (h1 : c ≠ ' ') (h2 : c ≠ '\n') (h3 : c ≠ '\t')
    (h4 : c ≠ '\x0d') : isWsChar c = false := by
  simp [isWsChar, h1, h2, h3, h4]

theorem digit_ne {c : Char} (h : c.isDigit = true) :
    c ≠ ']' ∧ c ≠ cbraceChar ∧ c ≠ ',' ∧ isWsChar c = false := by
  refine ⟨?_, ?_, ?_, nws_of_ne ?_ ?_ ?_ ?_⟩ <;>
    exact fun heq => absurd h (by subst heq; decide)

theorem decChars_cons (n : Nat) :
    ∃ c cs', decChars n = c :: cs' ∧ c.isDigit = true := by
  unfold decChars
  rcases hrev : (decRev n).reverse with _ | ⟨c, cs'⟩
  · exact absurd (List.reverse_eq_nil_iff.mp hrev) (decRev_ne_nil n)
  · refine ⟨c, cs', rfl, ?_⟩
    have hmem : c ∈ (decRev n).reverse := by rw [hrev]; exact List.mem_cons_self c cs'
    exact decRev_digits n c (List.mem_reverse.mp hmem)

theorem headNotClose {c : Char} {cs : List Char}
    (h0 : isWsChar c = false) (h1 : c ≠ ']') (h2 : c ≠ cbraceChar) (h3 : c ≠ ',') :
    ∃ d ds, c :: cs = d :: ds ∧ isWsChar d = false ∧ d ≠ ']' ∧ d ≠ cbraceChar ∧ d ≠ ',' :=
  ⟨c, cs, rfl, h0, h1, h2, h3⟩

theorem serInd_cons (d : Nat) (j : Json) :
    ∃ c cs', serInd d j = c :: cs' ∧ isWsChar c = false ∧ c ≠ ']' ∧ c ≠ cbraceChar
      ∧ c ≠ ',' := by
  cases j with
  | num n =>
    unfold serInd serInt
    by_cases hneg : n < 0
    · rw [if_pos hneg]
      exact headNotClose (by decide) (by decide) (by decide) (by decide)
    · rw [if_neg hneg]
      obtain ⟨c, cs', hc, hdig⟩ := decChars_cons n.natAbs
      obtain ⟨h1, h2, h3, h0⟩ := digit_ne hdig
      exact ⟨c, cs', hc, h0, h1, h2, h3⟩
  | bool b => cases b <;> exact headNotClose (by decide) (by decide) (by decide) (by decide)
  | arr xs =>
    cases xs <;> exact headNotClose (by decide) (by decide) (by decide) (by decide)
  | obj fs =>
    rcases fs with _ | ⟨⟨k, v⟩, fs'⟩ <;>
      exact headNotClose (by decide) (by decide) (by decide) (by decide)
  | null => exact headNotClose (by decide) (by decide) (by decide) (by decide)
  | str s => exact headNotClose (by decide) (by decide) (by decide) (by decide)

theorem nlInd_len (d : Nat) : (nlInd d).length = 2 * d + 1 := by simp [nlInd]

theorem serInd_len_pos (d : Nat) (j : Json) : 1 ≤ (serInd d j).length := by
  obtain ⟨c, cs', hc, -⟩ := serInd_cons d j
  simp [hc]

theorem serArrT_len_pos (d : Nat) (xs : List Json) : 1 ≤ (serArrT d xs).length := by
  cases xs with
  | nil => simp [serArrT]
  | cons x xs' => simp [serArrT]

theorem serObjT_len_pos (d : Nat) (fs : List (String × Json)) :
    1 ≤ (serObjT d fs).length := by
  cases fs with
  | nil => simp [serObjT]
  | cons kv fs' => rcases kv with ⟨k, v⟩; simp [serObjT]

theorem noDigitHead_serArrT (d : Nat) (xs : List Json) (rest : List Char) :
    noDigitHead (serArrT d xs ++ rest) = true := by
  cases xs with
  | nil => rfl
  | cons x xs' => rfl

theorem noDigitHead_serObjT (d : Nat) (fs : List (String × Json)) (rest : List Char) :
    noDigitHead (serObjT d fs ++ rest) = true := by
  cases fs with
  | nil => rfl
  | cons kv fs' => rcases kv with ⟨k, v⟩; rfl

theorem parseV_wsPre (f : Nat) (ws X : List Char) (h : ∀ c ∈ ws, isWsChar c = true) :
    parseV f (ws ++ X) = parseV f X := by
  cases f with
  | zero => rfl
  | succ f => simp only [parseV, skipWs_ws_append ws X h]

theorem parseV_succ (f : Nat) (cs0 : List Char) :
    parseV (f + 1) cs0 =
      (match skipWs cs0 with
      | [] => none
      | c :: cs =>
        if c.isDigit then
          some (.num (Int.ofNat (parseDigits (c :: cs) 0).1), (parseDigits (c :: cs) 0).2)
        else if c = '-' then
          match cs with
          | d :: cs2 =>
            if d.isDigit then
              some (.num (-Int.ofNat (parseDigits (d :: cs2) 0).1),
                (parseDigits (d :: cs2) 0).2)
            else none
          | [] => none
        else if c = 'n' then
          match cs with
          | 'u' :: 'l' :: 'l' :: r => some (.null, r)
          | _ => none
        else if c = 't' then
          match cs with
          | 'r' :: 'u' :: 'e' :: r => some (.bool true, r)
          | _ => none
        else if c = 'f' then
          match cs with
          | 'a' :: 'l' :: 's' :: 'e' :: r => some (.bool false, r)
          | _ => none
        else if c = '"' then
          (parseStrBody cs).map fun p => (.str (String.mk p.1), p.2)
        else if c = '[' then
          if (skipWs cs).head? = some ']' then some (.arr [], (skipWs cs).tail)
          else
            (parseV f cs).bind fun vr =>
              (parseItems f vr.2).map fun lr => (.arr (vr.1 :: lr.1), lr.2)
        else if c = obraceChar then
          if (skipWs cs).head? = some cbraceChar then some (.obj [], (skipWs cs).tail)
          else if (skipWs cs).head? = some '"' then
            (parseStrBody (skipWs cs).tail).bind fun kr =>
              match skipWs kr.2 with
              | ':' :: r3 =>
                (parseV f r3).bind fun vr =>
                  (parseFields f vr.2).map fun fr =>
                    (.obj (jsReorder ((String.mk kr.1, vr.1) :: fr.1)), fr.2)
              | _ => none
          else none
        else none) := rfl

theorem parseItems_succ (f : Nat) (cs0 : List Char) :
    parseItems (f + 1) cs0 =
      (match skipWs cs0 with
      | [] => none
      | c :: cs =>
        if c = ']' then some ([], cs)
        else if c = ',' then
          (parseV f cs).bind fun vr =>
            (parseItems f vr.2).map fun lr => (vr.1 :: lr.1, lr.2)
        else none) := rfl

theorem parseFields_succ (f : Nat) (cs0 : List Char) :
    parseFields (f + 1) cs0 =
      (match skipWs cs0 with
      | [] => none
      | c :: cs =>
        if c = cbraceChar then some ([], cs)
        else if c = ',' then
          if (skipWs cs).head? = some '"' then
            (parseStrBody (skipWs cs).tail).bind fun kr =>
              match skipWs kr.2 with
              | ':' :: r3 =>
                (parseV f r3).bind fun vr =>
                  (parseFields f vr.2).map fun fr =>
                    ((String.mk kr.1, vr.1) :: fr.1, fr.2)
              | _ => none
          else none
        else none) := rfl

theorem roundTripAll (f : Nat) :
    (∀ d j rest, (serInd d j).length ≤ f → noDigitHead rest = true →
      parseV f (serInd d j ++ rest) = some (canonize j, rest)) ∧
    (∀ d xs rest, (serArrT d xs).length ≤ f →
      parseItems f (serArrT d xs ++ rest) = some (canonList xs, rest)) ∧
    (∀ d fs rest, (serObjT d fs).length ≤ f →
      parseFields f (serObjT d fs ++ rest) = some (canonFields fs, rest)) := by
  induction f with
  | zero =>
    refine ⟨?_, ?_, ?_⟩
    · intro d j rest hlen _; have := serInd_len_pos d j; omega
    · intro d xs rest hlen; have := serArrT_len_pos d xs; omega
    · intro d fs rest hlen; have := serObjT_len_pos d fs; omega
  | succ f ih =>
    obtain ⟨ihV, ihI, ihF⟩ := ih
    refine ⟨?_, ?_, ?_⟩
    · intro d j rest hlen hnd
      cases j with
      | null => rfl
      | bool b => cases b with | true => rfl | false => rfl
      | num n =>
        obtain ⟨c, cs', hc, hdig⟩ := decChars_cons n.natAbs
        have hnws : isWsChar c = false := (digit_ne hdig).2.2.2
        by_cases hneg : n < 0
        · have harg : serInd d (.num n) ++ rest = '-' :: (c :: (cs' ++ rest)) := by
            show serInt n ++ rest = _
            rw [serInt, if_pos hneg, hc]
            simp
          rw [harg]
          show (if c.isDigit then
              some (Json.num (-Int.ofNat (parseDigits (c :: (cs' ++ rest)) 0).1),
                (parseDigits (c :: (cs' ++ rest)) 0).2)
            else none) = some (canonize (.num n), rest)
          rw [if_pos hdig,
            show c :: (cs' ++ rest) = decChars n.natAbs ++ rest from by
              rw [hc, List.cons_append],
            parseDigits_decChars_zero _ _ hnd]
          have hval : -Int.ofNat n.natAbs = n := by
            rw [Int.ofNat_eq_coe, Int.ofNat_natAbs_of_nonpos (by omega), neg_neg]
          rw [hval]
          rfl
        · have harg : serInd d (.num n) ++ rest = c :: (cs' ++ rest) := by
            show serInt n ++ rest = _
            rw [serInt, if_neg hneg, hc, List.cons_append]
          rw [harg, parseV_succ, skipWs_cons_nws _ hnws]
          show (if c.isDigit then
              some (Json.num (Int.ofNat (parseDigits (c :: (cs' ++ rest)) 0).1),
                (parseDigits (c :: (cs' ++ rest)) 0).2)
            else (if c = '-' then
              match cs' ++ rest with
              | d :: cs2 =>
                if d.isDigit then
                  some (Json.num (-Int.ofNat (parseDigits (d :: cs2) 0).1),
                    (parseDigits (d :: cs2) 0).2)
                else none
              | [] => none
            else if c = 'n' then
              match cs' ++ rest with
              | 'u' :: 'l' :: 'l' :: r => some (Json.null, r)
              | _ => none
            else if c = 't' then
              match cs' ++ rest with
              | 'r' :: 'u' :: 'e' :: r => some (Json.bool true, r)
              | _ => none
            else if c = 'f' then
              match cs' ++ rest with
              | 'a' :: 'l' :: 's' :: 'e' :: r => some (Json.bool false, r)
              | _ => none
            else if c = '"' then
              (parseStrBody (cs' ++ rest)).map fun p => (Json.str (String.mk p.1), p.2)
            else if c = '[' then
              if (skipWs (cs' ++ rest)).head? = some ']' then
                some (Json.arr [], (skipWs (cs' ++ rest)).tail)
              else
                (parseV f (cs' ++ rest)).bind fun vr =>
                  (parseItems f vr.2).map fun lr => (Json.arr (vr.1 :: lr.1), lr.2)
            else if c = obraceChar then
              if (skipWs (cs' ++ rest)).head? = some cbraceChar then
                some (Json.obj [], (skipWs (cs' ++ rest)).tail)
              else if (skipWs (cs' ++ rest)).head? = some '"' then
                (parseStrBody (skipWs (cs' ++ rest)).tail).bind fun kr =>
                  match skipWs kr.2 with
                  | ':' :: r3 =>
                    (parseV f r3).bind fun vr =>
                      (parseFields f vr.2).map fun fr =>
                        (Json.obj (jsReorder ((String.mk kr.1, vr.1) :: fr.1)), fr.2)
                  | _ => none
              else none
            else none)) = some (canonize (.num n), rest)
          rw [if_pos hdig,
            show c :: (cs' ++ rest) = decChars n.natAbs ++ rest from by
              rw [hc, List.cons_append],
            parseDigits_decChars_zero _ _ hnd]
          have hval : Int.ofNat n.natAbs = n := by
            rw [Int.ofNat_eq_coe]
            exact Int.natAbs_of_nonneg (by omega)
          rw [hval]
          rfl
      | str s =>
        have harg : serInd d (.str s) ++ rest = '"' :: (escChars s.data ++ '"' :: rest) := by
          show quoteChars s.data ++ rest = _
          simp [quoteChars]
        rw [harg]
        show (parseStrBody (escChars s.data ++ '"' :: rest)).map
          (fun p => (Json.str (String.mk p.1), p.2)) = some (.str s, rest)
        rw [parseStrBody_esc, optMapSome, strMkData]
      | arr xs =>
        cases xs with
        | nil => rfl
        | cons x xs' =>
          have harg : serInd d (.arr (x :: xs')) ++ rest
              = '[' :: (nlInd (d + 1)
                  ++ (serInd (d + 1) x ++ (serArrT (d + 1) xs' ++ rest))) := by
            show ('[' :: (nlInd (d + 1) ++ serInd (d + 1) x ++ serArrT (d + 1) xs'))
                ++ rest = _
            simp
          rw [harg]
          show (if (skipWs (nlInd (d + 1)
                ++ (serInd (d + 1) x ++ (serArrT (d + 1) xs' ++ rest)))).head? = some ']'
              then some (Json.arr [], (skipWs (nlInd (d + 1)
                ++ (serInd (d + 1) x ++ (serArrT (d + 1) xs' ++ rest)))).tail)
              else (parseV f (nlInd (d + 1)
                  ++ (serInd (d + 1) x ++ (serArrT (d + 1) xs' ++ rest)))).bind fun vr =>
                (parseItems f vr.2).map fun lr => (Json.arr (vr.1 :: lr.1), lr.2))
            = some (.arr (canonize x :: canonList xs'), rest)
          obtain ⟨c, cs', hcx, hnws, hne1, -, -⟩ := serInd_cons (d + 1) x
          have hY : skipWs (nlInd (d + 1)
              ++ (serInd (d + 1) x ++ (serArrT (d + 1) xs' ++ rest)))
              = serInd (d + 1) x ++ (serArrT (d + 1) xs' ++ rest) := by
            rw [skipWs_nlInd, hcx, List.cons_append, skipWs_cons_nws _ hnws]
          have hhead : (skipWs (nlInd (d + 1)
              ++ (serInd (d + 1) x ++ (serArrT (d + 1) xs' ++ rest)))).head? ≠ some ']' := by
            rw [hY, hcx, List.cons_append, List.head?_cons]
            simp [hne1]
          rw [if_neg hhead]
          have hpv : parseV f (nlInd (d + 1)
              ++ (serInd (d + 1) x ++ (serArrT (d + 1) xs' ++ rest)))
              = parseV f (serInd (d + 1) x ++ (serArrT (d + 1) xs' ++ rest)) :=
            parseV_wsPre f _ _ (nlInd_ws (d + 1))
          have hlx : (serInd (d + 1) x).length ≤ f ∧ (serArrT (d + 1) xs').length ≤ f := by
            have hexp : (serInd d (.arr (x :: xs'))).length
                = 1 + (nlInd (d + 1)).length + (serInd (d + 1) x).length
                  + (serArrT (d + 1) xs').length := by
              show ('[' :: (nlInd (d + 1) ++ serInd (d + 1) x
                ++ serArrT (d + 1) xs')).length = _
              simp [List.length_append]
              omega
            have h1 := serInd_len_pos (d + 1) x
            have h2 := serArrT_len_pos (d + 1) xs'
            have h3 := nlInd_len (d + 1)
            omega
          rw [hpv, ihV (d + 1) x (serArrT (d + 1) xs' ++ rest) hlx.1
            (noDigitHead_serArrT (d + 1) xs' rest), optBindSome,
            ihI (d + 1) xs' rest hlx.2, optMapSome]
      | obj fs =>
        cases fs with
        | nil => rfl
        | cons kv fs' =>
          rcases kv with ⟨k, v⟩
          have harg : serInd d (.obj ((k, v) :: fs')) ++ rest
              = obraceChar :: (nlInd (d + 1) ++ (quoteChars k.data
                  ++ (':' :: ' ' :: (serInd (d + 1) v ++ (serObjT (d + 1) fs'
                    ++ rest))))) := by
            show (obraceChar :: (nlInd (d + 1) ++ quoteChars k.data
                ++ ':' :: ' ' :: serInd (d + 1) v ++ serObjT (d + 1) fs')) ++ rest = _
            simp
          rw [harg]
          show (if (skipWs (nlInd (d + 1) ++ (quoteChars k.data
                ++ (':' :: ' ' :: (serInd (d + 1) v ++ (serObjT (d + 1) fs'
                  ++ rest)))))).head? = some cbraceChar
              then some (Json.obj [], (skipWs (nlInd (d + 1) ++ (quoteChars k.data
                ++ (':' :: ' ' :: (serInd (d + 1) v ++ (serObjT (d + 1) fs'
                  ++ rest)))))).tail)
              else if (skipWs (nlInd (d + 1) ++ (quoteChars k.data
                ++ (':' :: ' ' :: (serInd (d + 1) v ++ (serObjT (d + 1) fs'
                  ++ rest)))))).head? = some '"' then
                (parseStrBody (skipWs (nlInd (d + 1) ++ (quoteChars k.data
                  ++ (':' :: ' ' :: (serInd (d + 1) v ++ (serObjT (d + 1) fs'
                    ++ rest)))))).tail).bind fun kr =>
                  match skipWs kr.2 with
                  | ':' :: r3 =>
                    (parseV f r3).bind fun vr =>
                      (parseFields f vr.2).map fun fr =>
                        (Json.obj (jsReorder ((String.mk kr.1, vr.1) :: fr.1)), fr.2)
                  | _ => none
              else none)
            = some (.obj (jsReorder ((k, canonize v) :: canonFields fs')), rest)
          have hs : skipWs (nlInd (d + 1) ++ (quoteChars k.data
              ++ (':' :: ' ' :: (serInd (d + 1) v ++ (serObjT (d + 1) fs' ++ rest)))))
              = '"' :: (escChars k.data ++ '"' :: (':' :: ' ' :: (serInd (d + 1) v
                  ++ (serObjT (d + 1) fs' ++ rest)))) := by
            rw [skipWs_nlInd,
              show quoteChars k.data ++ (':' :: ' ' :: (serInd (d + 1) v
                  ++ (serObjT (d + 1) fs' ++ rest)))
                = '"' :: (escChars k.data ++ '"' :: (':' :: ' ' :: (serInd (d + 1) v
                    ++ (serObjT (d + 1) fs' ++ rest)))) from by simp [quoteChars],
              skipWs_cons_nws _ (by decide)]
          have hc1 (X : List Char) : ¬ ('"' :: X).head? = some cbraceChar := by
            rw [List.head?_cons]
            decide
          have hc2 (X : List Char) : ('"' :: X).head? = some '"' := rfl
          rw [hs, if_neg (hc1 _), if_pos (hc2 _), List.tail_cons]
          rw [parseStrBody_esc, optBindSome]
          show (parseV f (' ' :: (serInd (d + 1) v ++ (serObjT (d + 1) fs'
              ++ rest)))).bind
            (fun vr => (parseFields f vr.2).map fun fr =>
              (Json.obj (jsReorder ((String.mk k.data, vr.1) :: fr.1)), fr.2))
            = some (.obj (jsReorder ((k, canonize v) :: canonFields fs')), rest)
          have hpv : parseV f (' ' :: (serInd (d + 1) v ++ (serObjT (d + 1) fs' ++ rest)))
              = parseV f (serInd (d + 1) v ++ (serObjT (d + 1) fs' ++ rest)) :=
            parseV_wsPre f [' '] _ (by decide)
          have hlv : (serInd (d + 1) v).length ≤ f ∧ (serObjT (d + 1) fs').length ≤ f := by
            have hexp : (serInd d (.obj ((k, v) :: fs'))).length
                = 1 + (nlInd (d + 1)).length + (quoteChars k.data).length + 2
                  + (serInd (d + 1) v).length + (serObjT (d + 1) fs').length := by
              show (obraceChar :: (nlInd (d + 1) ++ quoteChars k.data
                ++ ':' :: ' ' :: serInd (d + 1) v ++ serObjT (d + 1) fs')).length = _
              simp [List.length_append]
              omega
            have h1 := serInd_len_pos (d + 1) v
            have h2 := serObjT_len_pos (d + 1) fs'
            have h3 := nlInd_len (d + 1)
            have h4 : 1 ≤ (quoteChars k.data).length := by simp [quoteChars]
            omega
          rw [hpv, ihV (d + 1) v (serObjT (d + 1) fs' ++ rest) hlv.1
            (noDigitHead_serObjT (d + 1) fs' rest), optBindSome,
            ihF (d + 1) fs' rest hlv.2, optMapSome, strMkData]
    · intro d xs rest hlen
      cases xs with
      | nil =>
        have harg : serArrT d [] ++ rest = nlInd (d - 1) ++ (']' :: rest) := by
          show (nlInd (d - 1) ++ [']']) ++ rest = _
          simp
        rw [harg, parseItems_succ, skipWs_nlInd]
        rfl
      | cons x xs' =>
        have harg : serArrT d (x :: xs') ++ rest
            = ',' :: (nlInd d ++ (serInd d x ++ (serArrT d xs' ++ rest))) := by
          show (',' :: (nlInd d ++ serInd d x ++ serArrT d xs')) ++ rest = _
          simp
        rw [harg]
        show (parseV f (nlInd d ++ (serInd d x ++ (serArrT d xs' ++ rest)))).bind
          (fun vr => (parseItems f vr.2).map fun lr => (vr.1 :: lr.1, lr.2))
          = some (canonize x :: canonList xs', rest)
        have hpv : parseV f (nlInd d ++ (serInd d x ++ (serArrT d xs' ++ rest)))
            = parseV f (serInd d x ++ (serArrT d xs' ++ rest)) :=
          parseV_wsPre f _ _ (nlInd_ws d)
        have hlx : (serInd d x).length ≤ f ∧ (serArrT d xs').length ≤ f := by
          have hexp : (serArrT d (x :: xs')).length
              = 1 + (nlInd d).length + (serInd d x).length + (serArrT d xs').length := by
            show (',' :: (nlInd d ++ serInd d x ++ serArrT d xs')).length = _
            simp [List.length_append]
            omega
          have h1 := serInd_len_pos d x
          have h2 := serArrT_len_pos d xs'
          have h3 := nlInd_len d
          omega
        rw [hpv, ihV d x (serArrT d xs' ++ rest) hlx.1 (noDigitHead_serArrT d xs' rest),
          optBindSome, ihI d xs' rest hlx.2, optMapSome]
    · intro d fs rest hlen
      cases fs with
      | nil =>
        have harg : serObjT d [] ++ rest = nlInd (d - 1) ++ (cbraceChar :: rest) := by
          show (nlInd (d - 1) ++ [cbraceChar]) ++ rest = _
          simp
        rw [harg, parseFields_succ, skipWs_nlInd]
        rfl
      | cons kv fs' =>
        rcases kv with ⟨k, v⟩
        have harg : serObjT d ((k, v) :: fs') ++ rest
            = ',' :: (nlInd d ++ (quoteChars k.data
                ++ (':' :: ' ' :: (serInd d v ++ (serObjT d fs' ++ rest))))) := by
          show (',' :: (nlInd d ++ quoteChars k.data
              ++ ':' :: ' ' :: serInd d v ++ serObjT d fs')) ++ rest = _
          simp
        rw [harg]
        show (if (skipWs (nlInd d ++ (quoteChars k.data
              ++ (':' :: ' ' :: (serInd d v ++ (serObjT d fs' ++ rest)))))).head?
              = some '"' then
            (parseStrBody (skipWs (nlInd d ++ (quoteChars k.data
              ++ (':' :: ' ' :: (serInd d v ++ (serObjT d fs' ++ rest)))))).tail).bind
              fun kr =>
                match skipWs kr.2 with
                | ':' :: r3 =>
                  (parseV f r3).bind fun vr =>
                    (parseFields f vr.2).map fun fr =>
                      ((String.mk kr.1, vr.1) :: fr.1, fr.2)
                | _ => none
          else none)
          = some ((k, canonize v) :: canonFields fs', rest)
        have hs : skipWs (nlInd d ++ (quoteChars k.data
            ++ (':' :: ' ' :: (serInd d v ++ (serObjT d fs' ++ rest)))))
            = '"' :: (escChars k.data ++ '"' :: (':' :: ' ' :: (serInd d v
                ++ (serObjT d fs' ++ rest)))) := by
          rw [skipWs_nlInd,
            show quoteChars k.data ++ (':' :: ' ' :: (serInd d v
                ++ (serObjT d fs' ++ rest)))
              = '"' :: (escChars k.data ++ '"' :: (':' :: ' ' :: (serInd d v
                  ++ (serObjT d fs' ++ rest)))) from by simp [quoteChars],
            skipWs_cons_nws _ (by decide)]
        have hc2 (X : List Char) : ('"' :: X).head? = some '"' := rfl
        rw [hs, if_pos (hc2 _), List.tail_cons]
        rw [parseStrBody_esc, optBindSome]
        show (parseV f (' ' :: (serInd d v ++ (serObjT d fs' ++ rest)))).bind
          (fun vr => (parseFields f vr.2).map fun fr =>
            ((String.mk k.data, vr.1) :: fr.1, fr.2))
          = some ((k, canonize v) :: canonFields fs', rest)
        have hpv : parseV f (' ' :: (serInd d v ++ (serObjT d fs' ++ rest)))
            = parseV f (serInd d v ++ (serObjT d fs' ++ rest)) :=
          parseV_wsPre f [' '] _ (by decide)
        have hlv : (serInd d v).length ≤ f ∧ (serObjT d fs').length ≤ f := by
          have hexp : (serObjT d ((k, v) :: fs')).length
              = 1 + (nlInd d).length + (quoteChars k.data).length + 2
                + (serInd d v).length + (serObjT d fs').length := by
            show (',' :: (nlInd d ++ quoteChars k.data
              ++ ':' :: ' ' :: serInd d v ++ serObjT d fs')).length = _
            simp [List.length_append]
            omega
          have h1 := serInd_len_pos d v
          have h2 := serObjT_len_pos d fs'
          have h3 := nlInd_len d
          have h4 : 1 ≤ (quoteChars k.data).length := by simp [quoteChars]
          omega
        rw [hpv, ihV d v (serObjT d fs' ++ rest) hlv.1 (noDigitHead_serObjT d fs' rest),
          optBindSome, ihF d fs' rest hlv.2, optMapSome, strMkData]

/-- Parsing the pretty-printed text of a document recovers the document in
parse-normal form. -/
theorem parse_stringify2 (j : Json) : parse (stringify2 j) = some (canonize j) := by
  show (match parseV ((serInd 0 j).length + 1) (serInd 0 j) with
    | some (j', r) => if skipWs r = [] then some j' else none
    | none => none) = some (canonize j)
  have h := (roundTripAll ((serInd 0 j).length + 1)).1 0 j [] (by omega) rfl
  rw [List.append_nil] at h
  rw [h]
  rfl

/-! ### Parse-normal form: `jsReorder` is idempotent and parser output is
already canonical -/

theorem idxAnn_key (fs : List (String × Json)) :
    ∀ p ∈ idxAnn fs, arrayIndexKey p.2.1 = some p.1 := by
  induction fs with
  | nil => intro p hp; simp [idxAnn] at hp
  | cons kv fs ih =>
    intro p hp
    unfold idxAnn at hp
    rw [List.filterMap_cons] at hp
    cases hk : arrayIndexKey kv.1 with
    | none => rw [hk] at hp; exact ih p hp
    | some n =>
      rw [hk] at hp
      simp only [Option.map_some'] at hp
      rcases List.mem_cons.mp hp with hp | hp
      · subst hp; exact hk
      · exact ih p hp

theorem idxAnn_append (a b : List (String × Json)) :
    idxAnn (a ++ b) = idxAnn a ++ idxAnn b := by
  unfold idxAnn
  exact List.filterMap_append a b _

theorem idxAnn_of_keyed (L : List (Nat × (String × Json)))
    (h : ∀ p ∈ L, arrayIndexKey p.2.1 = some p.1) : idxAnn (L.map Prod.snd) = L := by
  induction L with
  | nil => rfl
  | cons p L ih =>
    unfold idxAnn
    rw [List.map_cons, List.filterMap_cons, h p (List.mem_cons_self p L)]
    simp only [Option.map_some']
    have ihh := ih (fun q hq => h q (List.mem_cons_of_mem p hq))
    unfold idxAnn at ihh
    rw [ihh]

theorem filterNone_of_keyed (L : List (Nat × (String × Json)))
    (h : ∀ p ∈ L, arrayIndexKey p.2.1 = some p.1) :
    (L.map Prod.snd).filter (fun kv => (arrayIndexKey kv.1).isNone) = [] := by
  induction L with
  | nil => rfl
  | cons p L ih =>
    rw [List.map_cons, List.filter_cons, h p (List.mem_cons_self p L)]
    simp only [Option.isNone_some, if_neg]
    exact ih (fun q hq => h q (List.mem_cons_of_mem p hq))

theorem idxAnn_of_none (B : List (String × Json))
    (h : ∀ kv ∈ B, (arrayIndexKey kv.1).isNone = true) : idxAnn B = [] := by
  induction B with
  | nil => rfl
  | cons kv B ih =>
    unfold idxAnn
    rw [List.filterMap_cons]
    have hk := h kv (List.mem_cons_self kv B)
    rw [Option.isNone_iff_eq_none] at hk
    rw [hk]
    have ihh := ih (fun q hq => h q (List.mem_cons_of_mem kv hq))
    unfold idxAnn at ihh
    rw [ihh]
    rfl

theorem jsReorder_idem (fs : List (String × Json)) :
    jsReorder (jsReorder fs) = jsReorder fs := by
  have hkey : ∀ p ∈ (idxAnn fs).insertionSort idxLe, arrayIndexKey p.2.1 = some p.1 :=
    fun p hp => idxAnn_key fs p ((List.mem_insertionSort idxLe).mp hp)
  have hB : ∀ kv ∈ fs.filter (fun kv => (arrayIndexKey kv.1).isNone),
      (arrayIndexKey kv.1).isNone = true :=
    fun kv hkv => (List.mem_filter.mp hkv).2
  show jsReorder (((idxAnn fs).insertionSort idxLe).map Prod.snd
    ++ fs.filter fun kv => (arrayIndexKey kv.1).isNone) = _
  unfold jsReorder
  rw [idxAnn_append, idxAnn_of_keyed _ hkey, idxAnn_of_none _ hB, List.append_nil,
    List.Sorted.insertionSort_eq (List.sorted_insertionSort idxLe (idxAnn fs)),
    List.filter_append, filterNone_of_keyed _ hkey, List.nil_append,
    List.filter_eq_self.mpr hB]

theorem mem_jsReorder {p : String × Json} {L : List (String × Json)}
    (h : p ∈ jsReorder L) : p ∈ L := by
  unfold jsReorder at h
  rcases List.mem_append.mp h with h | h
  · obtain ⟨q, hq, hqp⟩ := List.mem_map.mp h
    have hq' : q ∈ idxAnn L := (List.mem_insertionSort idxLe).mp hq
    obtain ⟨kv, hkv, hf⟩ := List.mem_filterMap.mp hq'
    cases hk : arrayIndexKey kv.1 with
    | none => rw [hk] at hf; simp at hf
    | some n =>
      rw [hk] at hf
      simp only [Option.map_some', Option.some.injEq] at hf
      rw [← hqp, ← hf]
      exact hkv
  · exact (List.mem_filter.mp h).1

theorem canonFields_of_fixed (L : List (String × Json))
    (h : ∀ kv ∈ L, canonize kv.2 = kv.2) : canonFields L = L := by
  induction L with
  | nil => rfl
  | cons kv L ih =>
    rcases kv with ⟨k, v⟩
    rw [canonFields, h (k, v) (List.mem_cons_self _ L),
      ih (fun q hq => h q (List.mem_cons_of_mem _ hq))]

theorem fixed_of_canonFields (L : List (String × Json)) (h : canonFields L = L) :
    ∀ kv ∈ L, canonize kv.2 = kv.2 := by
  induction L with
  | nil => intro kv hkv; simp at hkv
  | cons p L ih =>
    rcases p with ⟨k, v⟩
    rw [canonFields] at h
    injection h with h1 h2
    intro kv hkv
    rcases List.mem_cons.mp hkv with hkv | hkv
    · subst hkv
      exact congrArg Prod.snd h1
    · exact ih h2 kv hkv

theorem fixed_of_canonList (L : List Json) (h : canonList L = L) :
    ∀ x ∈ L, canonize x = x := by
  induction L with
  | nil => intro x hx; simp at hx
  | cons y L ih =>
    rw [canonList] at h
    injection h with h1 h2
    intro x hx
    rcases List.mem_cons.mp hx with hx | hx
    · subst hx; exact h1
    · exact ih h2 x hx

theorem parsedCanon (f : Nat) :
    (∀ cs j r, parseV f cs = some (j, r) → canonize j = j) ∧
    (∀ cs xs r, parseItems f cs = some (xs, r) → canonList xs = xs) ∧
    (∀ cs fs r, parseFields f cs = some (fs, r) → canonFields fs = fs) := by
  induction f with
  | zero =>
    refine ⟨?_, ?_, ?_⟩ <;> intro cs a r h <;> exact Option.noConfusion h
  | succ f ih =>
    obtain ⟨ihV, ihI, ihF⟩ := ih
    refine ⟨?_, ?_, ?_⟩
    · intro cs j r h
      rw [parseV_succ] at h
      split at h
      · exact absurd h (by simp)
      · rename_i c cs2 hskip
        by_cases h1 : c.isDigit = true
        · rw [if_pos h1] at h
          simp only [Option.some.injEq, Prod.mk.injEq] at h
          rw [← h.1]
          rfl
        · rw [if_neg h1] at h
          by_cases h2 : c = '-'
          · rw [if_pos h2] at h
            split at h
            · split at h
              · simp only [Option.some.injEq, Prod.mk.injEq] at h
                rw [← h.1]
                rfl
              · exact absurd h (by simp)
            · exact absurd h (by simp)
          · rw [if_neg h2] at h
            by_cases h3 : c = 'n'
            · rw [if_pos h3] at h
              split at h
              · simp only [Option.some.injEq, Prod.mk.injEq] at h
                rw [← h.1]
                rfl
              all_goals exact absurd h (by simp)
            · rw [if_neg h3] at h
              by_cases h4 : c = 't'
              · rw [if_pos h4] at h
                split at h
                · simp only [Option.some.injEq, Prod.mk.injEq] at h
                  rw [← h.1]
                  rfl
                all_goals exact absurd h (by simp)
              · rw [if_neg h4] at h
                by_cases h5 : c = 'f'
                · rw [if_pos h5] at h
                  split at h
                  · simp only [Option.some.injEq, Prod.mk.injEq] at h
                    rw [← h.1]
                    rfl
                  all_goals exact absurd h (by simp)
                · rw [if_neg h5] at h
                  by_cases h6 : c = '"'
                  · rw [if_pos h6] at h
                    cases hp : parseStrBody cs2 with
                    | none => rw [hp] at h; exact absurd h (by simp)
                    | some p =>
                      rw [hp, optMapSome] at h
                      simp only [Option.some.injEq, Prod.mk.injEq] at h
                      rw [← h.1]
                      rfl
                  · rw [if_neg h6] at h
                    by_cases h7 : c = '['
                    · rw [if_pos h7] at h
                      split at h
                      · simp only [Option.some.injEq, Prod.mk.injEq] at h
                        rw [← h.1]
                        rfl
                      · cases hv : parseV f cs2 with
                        | none => rw [hv] at h; exact absurd h (by simp)
                        | some vr =>
                          rw [hv, optBindSome] at h
                          cases hl : parseItems f vr.2 with
                          | none => rw [hl] at h; exact absurd h (by simp)
                          | some lr =>
                            rw [hl, optMapSome] at h
                            simp only [Option.some.injEq, Prod.mk.injEq] at h
                            rw [← h.1]
                            show Json.arr (canonize vr.1 :: canonList lr.1) = _
                            rw [ihV _ _ _ hv, ihI _ _ _ hl]
                    · rw [if_neg h7] at h
                      by_cases h8 : c = obraceChar
                      · rw [if_pos h8] at h
                        split at h
                        · simp only [Option.some.injEq, Prod.mk.injEq] at h
                          rw [← h.1]
                          rfl
                        · split at h
                          · cases hk : parseStrBody (skipWs cs2).tail with
                            | none => rw [hk] at h; exact absurd h (by simp)
                            | some kr =>
                              rw [hk, optBindSome] at h
                              split at h
                              · cases hv : parseV f _ with
                                | none => rw [hv] at h; exact absurd h (by simp)
                                | some vr =>
                                  rw [hv, optBindSome] at h
                                  cases hfr : parseFields f vr.2 with
                                  | none => rw [hfr] at h; exact absurd h (by simp)
                                  | some fr =>
                                    rw [hfr, optMapSome] at h
                                    simp only [Option.some.injEq, Prod.mk.injEq] at h
                                    rw [← h.1]
                                    show Json.obj (jsReorder (canonFields
                                      (jsReorder ((String.mk kr.1, vr.1) :: fr.1)))) = _
                                    have hfix : ∀ kv ∈ ((String.mk kr.1, vr.1) :: fr.1),
                                        canonize kv.2 = kv.2 := by
                                      intro kv hkv
                                      rcases List.mem_cons.mp hkv with hkv | hkv
                                      · subst hkv
                                        exact ihV _ _ _ hv
                                      · exact fixed_of_canonFields fr.1 (ihF _ _ _ hfr) kv hkv
                                    rw [canonFields_of_fixed _
                                      (fun kv hkv => hfix kv (mem_jsReorder hkv)),
                                      jsReorder_idem]
                              · exact absurd h (by simp)
                          · exact absurd h (by simp)
                      · rw [if_neg h8] at h
                        exact absurd h (by simp)
    · intro cs xs r h
      rw [parseItems_succ] at h
      split at h
      · exact absurd h (by simp)
      · split at h
        · simp only [Option.some.injEq, Prod.mk.injEq] at h
          rw [← h.1]
          rfl
        · split at h
          · cases hv : parseV f _ with
            | none => rw [hv] at h; exact absurd h (by simp)
            | some vr =>
              rw [hv, optBindSome] at h
              cases hl : parseItems f vr.2 with
              | none => rw [hl] at h; exact absurd h (by simp)
              | some lr =>
                rw [hl, optMapSome] at h
                simp only [Option.some.injEq, Prod.mk.injEq] at h
                rw [← h.1]
                show canonize vr.1 :: canonList lr.1 = _
                rw [ihV _ _ _ hv, ihI _ _ _ hl]
          · exact absurd h (by simp)
    · intro cs fs r h
      rw [parseFields_succ] at h
      split at h
      · exact absurd h (by simp)
      · split at h
        · simp only [Option.some.injEq, Prod.mk.injEq] at h
          rw [← h.1]
          rfl
        · split at h
          · split at h
            · cases hk : parseStrBody _ with
              | none => rw [hk] at h; exact absurd h (by simp)
              | some kr =>
                rw [hk, optBindSome] at h
                split at h
                · cases hv : parseV f _ with
                  | none => rw [hv] at h; exact absurd h (by simp)
                  | some vr =>
                    rw [hv, optBindSome] at h
                    cases hfr : parseFields f vr.2 with
                    | none => rw [hfr] at h; exact absurd h (by simp)
                    | some fr =>
                      rw [hfr, optMapSome] at h
                      simp only [Option.some.injEq, Prod.mk.injEq] at h
                      rw [← h.1]
                      show (String.mk kr.1, canonize vr.1) :: canonFields fr.1 = _
                      rw [ihV _ _ _ hv, ihF _ _ _ hfr]
                · exact absurd h (by simp)
            · exact absurd h (by simp)
          · exact absurd h (by simp)

/-- Everything `parse` returns is a fixed point of `canonize`. -/
theorem parse_canon {s : String} {j : Json} (h : parse s = some j) : canonize j = j := by
  unfold parse at h
  split at h
  · rename_i j' r' heq
    split at h
    · injection h with h1
      subst h1
      exact (parsedCanon _).1 _ _ _ heq
    · exact absurd h (by simp)
  · exact absurd h (by simp)

/-! ### Record documents: property access and assignment -/

/-- First binding of a key in a field list: JS property lookup on an object
built by `JSON.parse`. -/
def lookupField : List (String × Json) → String → Option Json
  | [], _ => none
  | (k0, v0) :: fs, key => if k0 = key then some v0 else lookupField fs key

/-- `j.k` on a parsed document: a property of an object, `undefined`
(modelled `none`) on every other value. -/
def getField (j : Json) (k : String) : Option Json :=
  match j with
  | .obj fs => lookupField fs k
  | _ => none

/-- Truthiness of `j.k`, with an absent property falsy. -/
def fieldTruthy (j : Json) (k : String) : Bool :=
  match getField j k with
  | some v => truthyJson v
  | none => false

/-- JS property assignment on an object: overwrite the binding in place when
the key exists, create it at the end otherwise. -/
def setField : List (String × Json) → String → Json → List (String × Json)
  | [], k, v => [(k, v)]
  | (k0, v0) :: fs, k, v =>
    if k0 = k then (k0, v) :: fs else (k0, v0) :: setField fs k v

/-- Whether a document is the null value. -/
def isNull : Json → Bool
  | .null => true
  | _ => false

/-- `Array.prototype.join` with a newline separator, as `res.output.join`
at line 150 of the script uses it: null elements blank, the others
converted to text. -/
def jsJoinNl : List Json → String
  | [] => ""
  | [.null] => ""
  | [x] => jsString x
  | .null :: xs => "\n" ++ jsJoinNl xs
  | x :: xs => jsString x ++ "\n" ++ jsJoinNl xs

/-! ### The script: `.github/scripts/llm-failure-analysis.js`

The model of a run: the results directory is `none` when the path does not
exist and otherwise the list of (file name, file content) entries; the
transport is an oracle mapping the prompt to the observable outcome of the
one external call the script makes for it.  A run returns the process exit
code and the files the script wrote, in order, as (path, content) pairs. -/

/-- A character the sanitization at line 135 keeps: the class
`[a-zA-Z0-9._-]`. -/
def keepChar (c : Char) : Bool :=
  ('a' ≤ c && c ≤ 'z') || ('A' ≤ c && c ≤ 'Z') || ('0' ≤ c && c ≤ '9')
    || c = '.' || c = '_' || c = '-'

/-- `.replace(/[^a-zA-Z0-9._-]/g, '_')` (line 135). -/
def sanitize (s : String) : String :=
  String.mk (s.data.map fun c => if keepChar c then c else '_')

/-- `path.join(dir, name)` as the script uses it (lines 74 and 137): the
two segments separated by one separator.  (The general normalization
`path.join` performs on degenerate segments is outside the script's use.) -/
def pathJoin (dir name : String) : String := dir ++ "/" ++ name

/-- The characters after the last separator, current segment accumulated in
reverse. -/
def baseAux : List Char → List Char → List Char
  | cur, [] => cur.reverse
  | cur, c :: cs => if c = '/' then baseAux [] cs else baseAux (c :: cur) cs

/-- `path.basename` (line 135): the part after the last separator. -/
def basename (p : String) : String := String.mk (baseAux [] p.data)

/-- `String.prototype.endsWith` (line 71). -/
def endsWithStr (s suffix : String) : Bool :=
  decide (s.data.reverse.take suffix.data.length = suffix.data.reverse)

/-- The status test of line 78: `json.status && (json.status === 'failed'
|| json.status === 'broken')` — strict string comparisons, so only a string
status qualifies. -/
def isFailedOrBroken (j : Json) : Bool :=
  match getField j "status" with
  | some (.str s) => s = "failed" || s = "broken"
  | _ => false

/-- `findFailedResults` (lines 69-86): an absent directory yields the empty
batch (line 70); only names ending `.json` are read (line 71); a content
that does not parse is skipped (lines 75-83); a record passes the status
test of line 78.  Each failure carries the joined file path (line 74)
alongside its parsed record. -/
def findFailedResults (allureDir : String) :
    Option (List (String × String)) → List (String × Json)
  | none => []
  | some files =>
    (files.filter fun fc => endsWithStr fc.1 ".json").filterMap fun fc =>
      match parse fc.2 with
      | some j => if isFailedOrBroken j then some (pathJoin allureDir fc.1, j) else none
      | none => none

/-- `.slice(0, n)` on a text (line 113): its first `n` characters. -/
def strTake (s : String) (n : Nat) : String := String.mk (s.data.take n)

/-- `value || 'default'` under a template literal (lines 94, 103, 104): the
JS text of the value when it is truthy, the default otherwise. -/
def jsOr (v : Option Json) (dflt : String) : String :=
  match v with
  | some x => if truthyJson x then jsString x else dflt
  | none => dflt

/-- The fixed prompt preamble (lines 90-93). -/
def promptPreamble : List String :=
  ["You are an expert Playwright + Cucumber engineer.",
   "Analyze the failing test and provide a concise JSON with keys: summary, probable_root_cause, confidence, suggested_fix, immediate_workaround, files_to_change (array), allure_attachment (markdown string).",
   "Do not include secrets. Keep suggested_fix short and actionable.",
   "---"]

/-- The name and conditional full-name header lines (lines 94-95). -/
def headerLines (json : Json) : List String :=
  ("Test name: " ++ jsOr (getField json "name") "Unknown")
    :: (if fieldTruthy json "fullName" then
        ["Full name: " ++ jsString ((getField json "fullName").getD .null)]
      else [])

/-- The conditional error-message lines (lines 96-99). -/
def errMsgLines (json : Json) : List String :=
  match getField json "statusDetails" with
  | some sd =>
    if truthyJson sd then
      match getField sd "message" with
      | some m => if truthyJson m then ["Error message:", jsString m] else []
      | none => []
    else []
  | none => []

/-- The per-step lines of the loop at lines 102-108, carrying the zero-based
counter of `forEach`: the one-based name/status line (defaults `<step>` and
`unknown`), then the indented step-error line exactly when the step status
is strictly `failed` and a truthy `statusDetails.message` is present.  A
null element crashes the script at `s.status` (line 103); the crash is the
error case here. -/
def stepErrLines (s : Json) : List String :=
  match getField s "status" with
  | some (.str st) =>
    if st = "failed" then
      match getField s "statusDetails" with
      | some sd =>
        if truthyJson sd then
          match getField sd "message" with
          | some m =>
            if truthyJson m then ["   Step error: " ++ jsString m] else []
          | none => []
        else []
      | none => []
    else []
  | _ => []

def stepLines : Nat → List Json → Except String (List String)
  | _, [] => .ok []
  | i, s :: rest =>
    if isNull s then .error "Cannot read properties of null (reading 'status')"
    else
      (stepLines (i + 1) rest).map fun ls =>
        (natStr (i + 1) ++ ". " ++ jsOr (getField s "name") "<step>" ++ " - "
          ++ jsOr (getField s "status") "unknown") :: (stepErrLines s ++ ls)

/-- The steps block (lines 100-109): present only when the record's `steps`
is a nonempty array. -/
def stepsBlock (json : Json) : Except String (List String) :=
  match getField json "steps" with
  | some (.arr ss) =>
    if ss.length > 0 then (stepLines 0 ss).map fun ls => "Steps:" :: ls else .ok []
  | _ => .ok []

/-- The conditional stack-trace lines (lines 111-114): the label and the
trace converted to text, cut to its first 3000 characters. -/
def traceBlockLines (json : Json) : List String :=
  match getField json "statusDetails" with
  | some sd =>
    if truthyJson sd then
      match getField sd "trace" with
      | some tv =>
        if truthyJson tv then ["Stack trace:", strTake (jsString tv) 3000] else []
      | none => []
    else []
  | none => []

/-- `Array.prototype.join` with a newline separator over the line strings
(line 117). -/
def joinNl : List String → String
  | [] => ""
  | [l] => l
  | l :: ls => l ++ "\n" ++ joinNl ls

/-- `buildPrompt` (lines 88-118) as its line list. -/
def buildPromptLines (json : Json) : Except String (List String) :=
  (stepsBlock json).map fun sb =>
    promptPreamble ++ headerLines json ++ errMsgLines json ++ sb
      ++ traceBlockLines json ++ ["---", "Provide the JSON only."]

/-- `buildPrompt` (lines 88-118). -/
def buildPrompt (json : Json) : Except String String :=
  (buildPromptLines json).map joinNl

/-- The observable outcome of the one transport interaction a record incurs:
a 2xx HTTP body, a non-2xx HTTP status, an HTTP network failure, a CLI
success output, a CLI launch failure, or a CLI non-zero exit with its
standard error. -/
inductive CallOutcome where
  | httpOk (body : String)
  | httpStatusErr (status statusText : String)
  | httpNetErr (msg : String)
  | cliOk (stdout : String)
  | cliSpawnErr (msg : String)
  | cliExit (stderr : String)

/-- The extraction at lines 148-153 applied to the value `callOllamaHttp`
returned: a string result is kept; on a null result the property access of
line 150 throws (rendered here as the text the catch of lines 160-163
produces); otherwise the first truthy of `output` (arrays joined with
newlines, anything else converted to text), `text` and `raw` — the latter
two kept unconverted — and as a last resort the whole value pretty-printed
(line 153). -/
def httpExtract (res : Json) : Json :=
  match res with
  | .str s => .str s
  | .null => .str "LLM call failed: Cannot read properties of null (reading 'output')"
  | _ =>
    if fieldTruthy res "output" then
      .str (match (getField res "output").getD .null with
        | .arr xs => jsJoinNl xs
        | v => jsString v)
    else if fieldTruthy res "text" then (getField res "text").getD .null
    else if fieldTruthy res "raw" then (getField res "raw").getD .null
    else .str (stringify2 res)

/-- The analysis value of lines 141-163, before the string coercion of line
166, as a JS value with strings rendered `.str`: the HTTP branch parses the
2xx body, wrapping a non-JSON body as a raw object (line 47), and extracts
per lines 148-153; the CLI branch re-pretty-prints output that parses and
keeps other output verbatim (line 158); every transport throw — wrapped
with the prefixes of lines 49 and 65, the empty-stderr default of line 62
included — is caught at lines 160-163 into `LLM call failed: <message>`. -/
def rawAnalysis : CallOutcome → Json
  | .httpOk body =>
    httpExtract (match parse body with
      | some j => j
      | none => .obj [("raw", .str body)])
  | .httpStatusErr st stx =>
    .str ("LLM call failed: Ollama HTTP call failed: Ollama HTTP error "
      ++ st ++ " " ++ stx)
  | .httpNetErr m => .str ("LLM call failed: Ollama HTTP call failed: " ++ m)
  | .cliOk out =>
    .str (match parse out with
      | some j => stringify2 j
      | none => out)
  | .cliSpawnErr m => .str ("LLM call failed: Ollama CLI call failed: " ++ m)
  | .cliExit stderr =>
    .str ("LLM call failed: Ollama CLI call failed: "
      ++ (if stderr = "" then "ollama CLI failed" else stderr))

/-- Line 166: a non-string analysis value is pretty-printed. -/
def toText : Json → String
  | .str s => s
  | v => stringify2 v

/-- The recognized-field test of line 171: a truthy `summary`,
`probable_root_cause` or `allure_attachment`. -/
def recognized (p : Json) : Bool :=
  fieldTruthy p "summary" || fieldTruthy p "probable_root_cause"
    || fieldTruthy p "allure_attachment"

/-- The normalization of lines 167-182, producing the value of `pretty` as
a JS value: text that does not parse passes through; a parsed value with a
recognized field, and a parsed value with neither a recognized field nor a
truthy `raw`, are pretty-printed; a parsed value with a truthy `raw` and no
recognized field is unwrapped to that `raw` value — which need not be a
string. -/
def normalize167 (analysisText : String) : Json :=
  match parse analysisText with
  | none => .str analysisText
  | some parsed =>
    if truthyJson parsed && recognized parsed then .str (stringify2 parsed)
    else if truthyJson parsed && fieldTruthy parsed "raw" then
      (getField parsed "raw").getD .null
    else .str (stringify2 parsed)

/-- The attachment entry pushed at line 197. -/
def attachmentEntry (analysisFileName : String) : Json :=
  .obj [("name", .str "LLM failure analysis"), ("source", .str analysisFileName),
    ("type", .str "text/plain")]

/-- Whether an attachment references the analysis file, as the predicate of
line 195 decides it: `a.source === analysisFileName`. -/
def isMatch (analysisFileName : String) (a : Json) : Bool :=
  match getField a "source" with
  | some (.str s) => s = analysisFileName
  | _ => false

/-- The duplicate scan of line 195, `attachments.find(a => a.source ===
analysisFileName)`: the property access throws on a null element. -/
def findAlready (analysisFileName : String) : List Json → Except String Bool
  | [] => .ok false
  | a :: rest =>
    if isNull a then .error "Cannot read properties of null (reading 'source')"
    else if isMatch analysisFileName a then .ok true
    else findAlready analysisFileName rest

/-- The attach step of lines 191-205 on one record: line 193 keeps a truthy
`attachments` value as it is and replaces an absent or falsy one with the
empty array; the scan of line 195 and the push-and-rewrite of lines 196-199
follow, and every throw inside — `.find` on a non-array value, the callback
on a null element — is caught at line 203, leaving the record file
unwritten.  Returns the record as mutated in memory and the file writes.
`attachEnsured` is the part after the assignment of line 193, taking the
ensured `attachments` value. -/
def attachEnsured (file : String) (fs : List (String × Json)) (att : Json)
    (analysisFileName : String) : Json × List (String × String) :=
  match att with
  | .arr xs =>
    match findAlready analysisFileName xs with
    | .ok false =>
      let r2 : Json := .obj (setField (setField fs "attachments" att) "attachments"
        (.arr (xs ++ [attachmentEntry analysisFileName])))
      (r2, [(file, stringify2 r2)])
    | .ok true => (.obj (setField fs "attachments" att), [])
    | .error _ => (.obj (setField fs "attachments" att), [])
  | _ => (.obj (setField fs "attachments" att), [])

/-- The whole attach step of lines 191-205: line 193 keeps a truthy
`attachments` value as it is and replaces an absent or falsy one with the
empty array, then `attachEnsured` proceeds. -/
def attachRecord (file : String) (record : Json) (analysisFileName : String) :
    Json × List (String × String) :=
  match record with
  | .obj fs =>
    attachEnsured file fs
      (match lookupField fs "attachments" with
        | some a => if truthyJson a then a else .arr []
        | none => .arr [])
      analysisFileName
  | r => (r, [])

/-- One iteration of the loop at lines 134-206: the sanitized-basename
naming of lines 135-137, the prompt of line 139, the transport with its
catch (141-163), the string coercion of line 166, the normalization of
lines 167-184, the analysis write of line 187 and the attach step of lines
191-205.  The error case is an exception escaping the iteration — a null
step element in the prompt builder, or a non-string normalized value
reaching `writeFileSync` at line 187 — which aborts the whole run. -/
def processRecord (allureDir : String) (oracle : String → CallOutcome)
    (f : String × Json) : Except String (List (String × String)) :=
  let analysisFileName := sanitize (basename f.1) ++ "-llm-analysis.txt"
  let analysisPath := pathJoin allureDir analysisFileName
  match buildPrompt f.2 with
  | .error e => .error e
  | .ok prompt =>
    match normalize167 (toText (rawAnalysis (oracle prompt))) with
    | .str analysisText =>
      .ok ((analysisPath, analysisText)
        :: (attachRecord f.1 f.2 analysisFileName).2)
    | _ =>
      .error "The data argument must be of type string or an instance of Buffer, TypedArray, or DataView"

/-- The loop of line 134: the writes of completed records accumulate, in
order; an escaping exception stops the loop, keeping the earlier writes. -/
def runLoop (allureDir : String) (oracle : String → CallOutcome) :
    List (String × Json) → List (String × String) × Option String
  | [] => ([], none)
  | f :: rest =>
    match processRecord allureDir oracle f with
    | .ok ws =>
      let r := runLoop allureDir oracle rest
      (ws ++ r.1, r.2)
    | .error m => ([], some m)

/-- `analyzeFailures` under the process wrapper (lines 120-130, 208 and
212-235): an empty batch — an absent directory included (line 70) — exits 0
having written nothing (lines 127-130); a completed batch exits 0 (lines
208, 230); an exception escaping the loop is caught only by the top-level
handler and exits 2 (line 233), keeping the writes of the records completed
before it. -/
def runPipeline (allureDir : String) (dir : Option (List (String × String)))
    (oracle : String → CallOutcome) : Nat × List (String × String) :=
  match findFailedResults allureDir dir with
  | [] => (0, [])
  | f :: rest =>
    match runLoop allureDir oracle (f :: rest) with
    | (ws, none) => (0, ws)
    | (ws, some _) => (2, ws)

/-! ### Lemmas about the script model -/

theorem attachEnsured_arr (file : String) (fs : List (String × Json)) (xs : List Json)
    (n : String) :
    attachEnsured file fs (.arr xs) n =
      (match findAlready n xs with
      | .ok false =>
        (Json.obj (setField (setField fs "attachments" (.arr xs)) "attachments"
            (.arr (xs ++ [attachmentEntry n]))),
          [(file, stringify2 (Json.obj (setField (setField fs "attachments" (.arr xs))
            "attachments" (.arr (xs ++ [attachmentEntry n])))))])
      | .ok true => (.obj (setField fs "attachments" (.arr xs)), [])
      | .error _ => (.obj (setField fs "attachments" (.arr xs)), [])) := rfl

theorem attachEnsured_paths (file : String) (fs : List (String × Json)) (att : Json)
    (n : String) : ∀ w ∈ (attachEnsured file fs att n).2, w.1 = file := by
  intro w hw
  cases att with
  | arr xs =>
    rw [attachEnsured_arr] at hw
    cases hf : findAlready n xs with
    | ok b =>
      rw [hf] at hw
      cases b with
      | false =>
        rcases List.mem_singleton.mp hw with rfl
        rfl
      | true => exact absurd hw (List.not_mem_nil w)
    | error m =>
      rw [hf] at hw
      exact absurd hw (List.not_mem_nil w)
  | null => exact absurd hw (List.not_mem_nil w)
  | bool b => exact absurd hw (List.not_mem_nil w)
  | num m => exact absurd hw (List.not_mem_nil w)
  | str s => exact absurd hw (List.not_mem_nil w)
  | obj gs => exact absurd hw (List.not_mem_nil w)

theorem attachRecord_paths (file : String) (r : Json) (n : String) :
    ∀ w ∈ (attachRecord file r n).2, w.1 = file := by
  intro w hw
  cases r with
  | obj fs => exact attachEnsured_paths file fs _ n w hw
  | null => exact absurd hw (List.not_mem_nil w)
  | bool b => exact absurd hw (List.not_mem_nil w)
  | num m => exact absurd hw (List.not_mem_nil w)
  | str s => exact absurd hw (List.not_mem_nil w)
  | arr xs => exact absurd hw (List.not_mem_nil w)

theorem setField_last (fs : List (String × Json)) (k : String) (v0 v : Json)
    (h : lookupField fs k = none) :
    setField (fs ++ [(k, v0)]) k v = fs ++ [(k, v)] := by
  induction fs with
  | nil => simp [setField]
  | cons kv fs ih =>
    rcases kv with ⟨k0, w0⟩
    rw [lookupField] at h
    by_cases hk : k0 = k
    · rw [if_pos hk] at h
      exact absurd h (by simp)
    · rw [if_neg hk] at h
      rw [List.cons_append, setField, if_neg hk, ih h, List.cons_append]

theorem findAlready_no_null (n : String) (xs : List Json)
    (h : ∀ a ∈ xs, isNull a = false) :
    findAlready n xs = .ok (xs.any (isMatch n)) := by
  induction xs with
  | nil => rfl
  | cons a xs ih =>
    have ha := h a (List.mem_cons_self a xs)
    have hrest := ih (fun b hb => h b (List.mem_cons_of_mem a hb))
    rw [findAlready, if_neg (by simp [ha])]
    by_cases hm : isMatch n a = true
    · rw [if_pos hm]
      simp [List.any_cons, hm]
    · rw [if_neg hm, hrest]
      simp only [Bool.not_eq_true] at hm
      simp [List.any_cons, hm]

theorem isMatch_entry (n : String) : isMatch n (attachmentEntry n) = true := by
  simp [isMatch, attachmentEntry, getField, lookupField]

/-- Pretty-printing a canonical document and parsing it back is the
identity. -/
theorem parse_stringify2_self (j : Json) (h : canonize j = j) :
    parse (stringify2 j) = some j := by
  rw [parse_stringify2, h]

theorem stepLines_spec (ss : List Json) (h : ∀ s ∈ ss, isNull s = false) :
    ∀ i, stepLines i ss
      = .ok ((ss.enumFrom i).flatMap fun p =>
          (natStr (p.1 + 1) ++ ". " ++ jsOr (getField p.2 "name") "<step>" ++ " - "
            ++ jsOr (getField p.2 "status") "unknown") :: stepErrLines p.2) := by
  induction ss with
  | nil => intro i; rfl
  | cons s rest ih =>
    intro i
    have hs := h s (List.mem_cons_self s rest)
    rw [stepLines, if_neg (by simp [hs]),
      ih (fun b hb => h b (List.mem_cons_of_mem s hb)) (i + 1)]
    rfl

theorem runLoop_err (allureDir : String) (oracle : String → CallOutcome) :
    ∀ (L : List (String × Json)) (m : String),
      (runLoop allureDir oracle L).2 = some m →
      ∃ f ∈ L, processRecord allureDir oracle f = .error m := by
  intro L
  induction L with
  | nil => intro m h; exact absurd h (by simp [runLoop])
  | cons f rest ih =>
    intro m h
    rw [runLoop] at h
    split at h
    · obtain ⟨g, hg, hge⟩ := ih m h
      exact ⟨g, List.mem_cons_of_mem f hg, hge⟩
    · rename_i m' hm'
      simp only at h
      injection h with h1
      subst h1
      exact ⟨f, List.mem_cons_self f rest, hm'⟩

theorem lookupField_setField (fs : List (String × Json)) (k : String) (v : Json) :
    lookupField (setField fs k v) k = some v := by
  induction fs with
  | nil => simp [setField, lookupField]
  | cons kv fs ih =>
    rcases kv with ⟨k0, v0⟩
    rw [setField]
    by_cases hk : k0 = k
    · rw [if_pos hk, lookupField, if_pos hk]
    · rw [if_neg hk, lookupField, if_neg hk, ih]

theorem setField_overwrite (fs : List (String × Json)) (k : String) (v0 v1 : Json) :
    setField (setField fs k v0) k v1 = setField fs k v1 := by
  induction fs with
  | nil => simp [setField]
  | cons kv fs ih =>
    rcases kv with ⟨k0, w0⟩
    rw [setField]
    by_cases hk : k0 = k
    · rw [if_pos hk, setField, if_pos hk, setField, if_pos hk]
    · rw [if_neg hk, setField, if_neg hk, setField, if_neg hk, ih]

theorem setField_self (fs : List (String × Json)) (k : String) (v : Json)
    (h : lookupField fs k = some v) : setField fs k v = fs := by
  induction fs with
  | nil => exact absurd h (by simp [lookupField])
  | cons kv fs ih =>
    rcases kv with ⟨k0, w0⟩
    rw [lookupField] at h
    rw [setField]
    by_cases hk : k0 = k
    · rw [if_pos hk] at h
      rw [if_pos hk]
      injection h with h1
      rw [h1]
    · rw [if_neg hk] at h
      rw [if_neg hk, ih h]

/-- The attachment entry is already in parse-normal form, whatever the file
name. -/
theorem canon_entry (n : String) : canonize (attachmentEntry n) = attachmentEntry n := rfl

/-- The attachments sequence the script reads on a record (empty when the
field is absent or not an array). -/
def attachmentsArr (r : Json) : List Json :=
  match getField r "attachments" with
  | some (.arr xs) => xs
  | _ => []

/-- The shapes of the `attachments` value on which the attach step of lines
191-205 completes without an internal throw and without a duplicate beyond
the idempotency key: an array free of null elements with at most one entry
referencing the analysis file, any falsy value, or no value at all.  A
truthy non-array value breaks `.find` at line 195. -/
def attachReady (fs : List (String × Json)) (n : String) : Bool :=
  match lookupField fs "attachments" with
  | some (.arr xs) => xs.all (fun a => !isNull a) && decide (xs.countP (isMatch n) ≤ 1)
  | some a => !truthyJson a
  | none => true

theorem attachRecord_obj (file n : String) (fs : List (String × Json)) :
    attachRecord file (.obj fs) n
      = attachEnsured file fs
          (match lookupField fs "attachments" with
            | some a => if truthyJson a then a else .arr []
            | none => .arr [])
          n := rfl

/-- When the record's attachments value reads as the array `xs` with no null
element and no entry referencing the analysis file yet, the attach step
appends exactly the new entry and rewrites the record file. -/
theorem attachEnsured_new (file n : String) (fs : List (String × Json)) (xs : List Json)
    (hnn : ∀ a ∈ xs, isNull a = false) (hnone : xs.any (isMatch n) = false) :
    attachEnsured file fs (.arr xs) n
      = (.obj (setField fs "attachments" (.arr (xs ++ [attachmentEntry n]))),
          [(file, stringify2 (.obj (setField fs "attachments"
            (.arr (xs ++ [attachmentEntry n])))))]) := by
  rw [attachEnsured_arr, findAlready_no_null n xs hnn, hnone, setField_overwrite]

/-- When the array already holds an entry referencing the analysis file, the
attach step changes nothing and writes nothing. -/
theorem attachEnsured_already (file n : String) (fs : List (String × Json)) (xs : List Json)
    (hnn : ∀ a ∈ xs, isNull a = false) (hsome : xs.any (isMatch n) = true) :
    attachEnsured file fs (.arr xs) n = (.obj (setField fs "attachments" (.arr xs)), []) := by
  rw [attachEnsured_arr, findAlready_no_null n xs hnn, hsome]

/-- `buildPrompt` only fails on a null step element. -/
theorem stepsBlock_arr_pos (json : Json) (ss : List Json)
    (hst : getField json "steps" = some (.arr ss)) (hlen : ss.length > 0) :
    stepsBlock json = Except.map (fun ls => "Steps:" :: ls) (stepLines 0 ss) := by
  unfold stepsBlock
  rw [hst]
  exact if_pos hlen

/-- A completed record iteration always consists of the one analysis-file
write, then the attach step's writes. -/
theorem processRecord_ok_shape (allureDir : String) (oracle : String → CallOutcome)
    (f : String × Json) (ws : List (String × String))
    (h : processRecord allureDir oracle f = .ok ws) :
    ∃ txt, ws = (pathJoin allureDir (sanitize (basename f.1) ++ "-llm-analysis.txt"), txt)
      :: (attachRecord f.1 f.2 (sanitize (basename f.1) ++ "-llm-analysis.txt")).2 := by
  unfold processRecord at h
  split at h
  · exact absurd h (by simp)
  · split at h
    · injection h with h1
      exact ⟨_, h1.symm⟩
    · exact absurd h (by simp)

/-! ### The claims -/

/-- C1, refuting the original naming: the analysis file name is derived from
the record's file name, not from the record's own identifier field.  A
record stored in `r1-result.json` with identifier `u1` yields the analysis
file `r1-result.json-llm-analysis.txt`, not `u1-llm-analysis.txt`. -/
theorem claim1_counterexample :
    (processRecord "allure-results" (fun _ => .cliOk "hello")
        ("allure-results/r1-result.json",
          .obj [("uuid", .str "u1"), ("name", .str "t"),
            ("status", .str "failed")])).map (fun ws => ws.map Prod.fst)
      = .ok ["allure-results/r1-result.json-llm-analysis.txt",
          "allure-results/r1-result.json"]
    ∧ sanitize "r1-result.json" ++ "-llm-analysis.txt"
        ≠ sanitize "u1" ++ "-llm-analysis.txt" := by
  exact ⟨rfl, by decide⟩

/-- C1 (amended): for every record whose iteration completes, exactly one
write goes to the analysis file, whose name is derived deterministically
from the record's file name — the basename of its path with every character
outside `[A-Za-z0-9._-]` replaced by `_` — suffixed `-llm-analysis.txt`. -/
theorem claim1 (allureDir : String) (oracle : String → CallOutcome)
    (f : String × Json) (ws : List (String × String))
    (h : processRecord allureDir oracle f = .ok ws)
    (hne : pathJoin allureDir (sanitize (basename f.1) ++ "-llm-analysis.txt") ≠ f.1) :
    (ws.map Prod.fst).countP
      (fun p => p == pathJoin allureDir (sanitize (basename f.1)
        ++ "-llm-analysis.txt")) = 1 := by
  obtain ⟨txt, rfl⟩ := processRecord_ok_shape allureDir oracle f ws h
  rw [List.map_cons, List.countP_cons]
  have h0 : (((attachRecord f.1 f.2 (sanitize (basename f.1)
      ++ "-llm-analysis.txt")).2).map Prod.fst).countP
      (fun p => p == pathJoin allureDir (sanitize (basename f.1)
        ++ "-llm-analysis.txt")) = 0 := by
    apply List.countP_eq_zero.mpr
    intro a ha
    obtain ⟨w, hw, rfl⟩ := List.mem_map.mp ha
    rw [attachRecord_paths f.1 f.2 _ w hw]
    simp only [beq_iff_eq]
    exact fun hc => hne hc.symm
  rw [h0]
  simp

theorem claim1_witness :
    processRecord "d" (fun _ => .cliOk "out") ("d/a-result.json",
        .obj [("status", .str "failed")])
      = .ok [("d/a-result.json-llm-analysis.txt", "out"),
          ("d/a-result.json", stringify2 (.obj [("status", .str "failed"),
            ("attachments", .arr [attachmentEntry "a-result.json-llm-analysis.txt"])]))]
    ∧ pathJoin "d" (sanitize (basename "d/a-result.json") ++ "-llm-analysis.txt")
        ≠ "d/a-result.json"
    ∧ (([("d/a-result.json-llm-analysis.txt", "out"),
          ("d/a-result.json", stringify2 (.obj [("status", .str "failed"),
            ("attachments",
              .arr [attachmentEntry "a-result.json-llm-analysis.txt"])]))].map
          Prod.fst).countP
        (fun p => p == pathJoin "d" (sanitize (basename "d/a-result.json")
          ++ "-llm-analysis.txt"))) = 1 := by
  refine ⟨rfl, by decide, claim1 "d" (fun _ => .cliOk "out")
    ("d/a-result.json", .obj [("status", .str "failed")]) _ rfl (by decide)⟩

/-- C2, refuting the original exit-code contract: an absent results
directory does not abort with exit code 2 — discovery returns the empty
batch (line 70 of the script) and the run exits 0 having written nothing. -/
theorem claim2_counterexample :
    runPipeline "allure-results" none (fun _ => .cliOk "x") = (0, []) := rfl

/-- C2 (amended): an absent results directory yields the empty batch, exit
code 0 and no writes; exit code 2 arises only when processing some
discovered record lets an exception escape (for example a normalized
response unwrapped to a non-string raw value). -/
theorem claim2 :
    (∀ allureDir oracle, runPipeline allureDir none oracle = (0, []))
    ∧ (∀ allureDir dir oracle, (runPipeline allureDir dir oracle).1 = 2 →
        ∃ f ∈ findFailedResults allureDir dir, ∃ m,
          processRecord allureDir oracle f = .error m) := by
  constructor
  · intro allureDir oracle
    rfl
  · intro allureDir dir oracle h
    unfold runPipeline at h
    split at h
    · exact absurd h (by simp)
    · rename_i f rest heq
      rcases hr : runLoop allureDir oracle (f :: rest) with ⟨ws, e⟩
      rw [hr] at h
      cases e with
      | none => exact absurd h (by simp)
      | some m =>
        have h2 : (runLoop allureDir oracle (f :: rest)).2 = some m := by rw [hr]
        obtain ⟨g, hg, hge⟩ := runLoop_err allureDir oracle (f :: rest) m h2
        rw [heq]
        exact ⟨g, hg, m, hge⟩

theorem claim2_witness :
    (runPipeline "d" (some [("r.json", stringify2 (.obj [("status", .str "failed")]))])
        (fun _ => .cliOk (stringify2 (.obj [("raw", .num 5)])))).1 = 2
    ∧ ∃ f ∈ findFailedResults "d"
          (some [("r.json", stringify2 (.obj [("status", .str "failed")]))]), ∃ m,
        processRecord "d" (fun _ => .cliOk (stringify2 (.obj [("raw", .num 5)]))) f
          = .error m := by
  refine ⟨rfl, claim2.2 "d" (some [("r.json", stringify2 (.obj [("status", .str "failed")]))])
    (fun _ => .cliOk (stringify2 (.obj [("raw", .num 5)]))) rfl⟩

/-- Whether the normalization of lines 167-182 takes the raw-unwrap branch
(line 174) on this text. -/
def rawUnwrapped (s : String) : Bool :=
  match parse s with
  | some p => truthyJson p && !recognized p && fieldTruthy p "raw"
  | none => false

/-- C3, refuting idempotence: a raw wrapper whose raw text is itself a raw
wrapper normalizes to the inner wrapper text, which normalizes again to the
innermost text, so one and two normalizations differ. -/
theorem claim3_counterexample :
    normalize167 (stringify2 (.obj [("raw",
        .str (stringify2 (.obj [("raw", .str "b")])))]))
      = .str (stringify2 (.obj [("raw", .str "b")]))
    ∧ normalize167 (stringify2 (.obj [("raw", .str "b")])) = .str "b"
    ∧ stringify2 (.obj [("raw", .str "b")]) ≠ "b" := by
  exact ⟨rfl, rfl, by decide⟩

/-- C3 (amended): the normalization is idempotent on every text whose
normalization does not take the raw-unwrap branch: whenever it yields a
text through the recognized-field re-serialization, the defensive
re-serialization or the non-parsing passthrough, normalizing that text
again leaves it unchanged. -/
theorem claim3 (s t : String) (h : normalize167 s = .str t)
    (hnr : rawUnwrapped s = false) : normalize167 t = .str t := by
  cases hp : parse s with
  | none =>
    unfold normalize167 at h
    rw [hp] at h
    replace h : Json.str s = Json.str t := h
    injection h with h1
    subst h1
    unfold normalize167
    rw [hp]
  | some p =>
    have hcanon := parse_canon hp
    unfold normalize167 at h
    rw [hp] at h
    replace h : (if (truthyJson p && recognized p) = true then Json.str (stringify2 p)
      else if (truthyJson p && fieldTruthy p "raw") = true then
        (getField p "raw").getD Json.null
      else Json.str (stringify2 p)) = Json.str t := h
    unfold rawUnwrapped at hnr
    rw [hp] at hnr
    replace hnr : (truthyJson p && !recognized p && fieldTruthy p "raw") = false := hnr
    by_cases hb1 : (truthyJson p && recognized p) = true
    · rw [if_pos hb1] at h
      injection h with h1
      subst h1
      unfold normalize167
      rw [parse_stringify2_self p hcanon]
      show (if (truthyJson p && recognized p) = true then Json.str (stringify2 p)
        else if (truthyJson p && fieldTruthy p "raw") = true then
          (getField p "raw").getD Json.null
        else Json.str (stringify2 p)) = Json.str (stringify2 p)
      rw [if_pos hb1]
    · rw [if_neg hb1] at h
      by_cases hb2 : (truthyJson p && fieldTruthy p "raw") = true
      · exfalso
        simp only [Bool.and_eq_true] at hb2
        have hrec : recognized p = false := by
          cases hr : recognized p
          · rfl
          · exact absurd (by rw [hb2.1, hr]; rfl :
              (truthyJson p && recognized p) = true) hb1
        rw [hb2.1, hrec, hb2.2] at hnr
        exact absurd hnr (by decide)
      · rw [if_neg hb2] at h
        injection h with h1
        subst h1
        unfold normalize167
        rw [parse_stringify2_self p hcanon]
        show (if (truthyJson p && recognized p) = true then Json.str (stringify2 p)
          else if (truthyJson p && fieldTruthy p "raw") = true then
            (getField p "raw").getD Json.null
          else Json.str (stringify2 p)) = Json.str (stringify2 p)
        rw [if_neg hb1, if_neg hb2]

theorem claim3_witness :
    normalize167 (stringify2 (.obj [("summary", .str "ok")]))
      = .str (stringify2 (.obj [("summary", .str "ok")]))
    ∧ rawUnwrapped (stringify2 (.obj [("summary", .str "ok")])) = false
    ∧ normalize167 (stringify2 (.obj [("summary", .str "ok")]))
      = .str (stringify2 (.obj [("summary", .str "ok")])) := by
  refine ⟨rfl, rfl, claim3 (stringify2 (.obj [("summary", .str "ok")]))
    (stringify2 (.obj [("summary", .str "ok")])) rfl rfl⟩

/-- Whether a directory entry contributes a discovered failure: a `.json`
name whose content parses to a failed or broken record. -/
def eligibleFile (fc : String × String) : Bool :=
  endsWithStr fc.1 ".json"
    && (match parse fc.2 with
      | some j => isFailedOrBroken j
      | none => false)

/-- C7: an existing results directory with no failed or broken record gives
an empty batch: the run exits 0 and writes nothing. -/
theorem claim7 (allureDir : String) (files : List (String × String))
    (oracle : String → CallOutcome) (h : ∀ fc ∈ files, eligibleFile fc = false) :
    runPipeline allureDir (some files) oracle = (0, []) := by
  have hempty : findFailedResults allureDir (some files) = [] := by
    unfold findFailedResults
    apply List.filterMap_eq_nil_iff.mpr
    intro fc hfc
    obtain ⟨hmem, hext⟩ := List.mem_filter.mp hfc
    have he := h fc hmem
    unfold eligibleFile at he
    rw [hext] at he
    simp only [Bool.true_and] at he
    cases hp : parse fc.2 with
    | none => rfl
    | some j =>
      rw [hp] at he
      replace he : isFailedOrBroken j = false := he
      show (if isFailedOrBroken j = true then some (pathJoin allureDir fc.1, j)
        else none) = none
      rw [if_neg (by simp [he])]
  unfold runPipeline
  rw [hempty]

theorem claim7_witness :
    (∀ fc ∈ [("a-result.json", stringify2 (.obj [("status", .str "passed")])),
        ("notes.txt", "plain")], eligibleFile fc = false)
    ∧ runPipeline "allure-results"
        (some [("a-result.json", stringify2 (.obj [("status", .str "passed")])),
          ("notes.txt", "plain")]) (fun _ => .cliOk "x") = (0, []) := by
  refine ⟨by decide, claim7 "allure-results" _ (fun _ => .cliOk "x") (by decide)⟩

/-- C9: every discovered failure comes from a directory entry whose name
ends in `.json`; a record stored without the extension is never returned by
discovery. -/
theorem claim9 (allureDir : String) (files : List (String × String))
    (p : String × Json) (h : p ∈ findFailedResults allureDir (some files)) :
    ∃ fc ∈ files, endsWithStr fc.1 ".json" = true ∧ p.1 = pathJoin allureDir fc.1
      ∧ parse fc.2 = some p.2 ∧ isFailedOrBroken p.2 = true := by
  unfold findFailedResults at h
  obtain ⟨fc, hfc, hsome⟩ := List.mem_filterMap.mp h
  obtain ⟨hmem, hext⟩ := List.mem_filter.mp hfc
  refine ⟨fc, hmem, hext, ?_⟩
  cases hp : parse fc.2 with
  | none => rw [hp] at hsome; exact absurd hsome (by simp)
  | some j =>
    rw [hp] at hsome
    replace hsome : (if isFailedOrBroken j = true
        then some (pathJoin allureDir fc.1, j) else none) = some p := hsome
    by_cases hel : isFailedOrBroken j = true
    · rw [if_pos hel] at hsome
      injection hsome with h1
      rw [← h1]
      exact ⟨rfl, rfl, hel⟩
    · rw [if_neg hel] at hsome
      exact absurd hsome (by simp)

theorem claim9_witness :
    ("allure-results/a-result.json", Json.obj [("status", Json.str "failed")])
        ∈ findFailedResults "allure-results"
          (some [("a-result.json", stringify2 (.obj [("status", .str "failed")])),
            ("b-result", stringify2 (.obj [("status", .str "failed")]))])
    ∧ ∃ fc ∈ [("a-result.json", stringify2 (.obj [("status", .str "failed")])),
          ("b-result", stringify2 (.obj [("status", .str "failed")]))],
        endsWithStr fc.1 ".json" = true
        ∧ ("allure-results/a-result.json", Json.obj [("status", Json.str "failed")]).1
            = pathJoin "allure-results" fc.1
        ∧ parse fc.2 = some ("allure-results/a-result.json",
            Json.obj [("status", Json.str "failed")]).2
        ∧ isFailedOrBroken ("allure-results/a-result.json",
            Json.obj [("status", Json.str "failed")]).2 = true := by
  have hmem : ("allure-results/a-result.json", Json.obj [("status", Json.str "failed")])
      ∈ findFailedResults "allure-results"
        (some [("a-result.json", stringify2 (.obj [("status", .str "failed")])),
          ("b-result", stringify2 (.obj [("status", .str "failed")]))]) := by
    rw [show findFailedResults "allure-results"
        (some [("a-result.json", stringify2 (.obj [("status", .str "failed")])),
          ("b-result", stringify2 (.obj [("status", .str "failed")]))])
      = [("allure-results/a-result.json", Json.obj [("status", Json.str "failed")])]
      from rfl]
    exact List.mem_singleton.mpr rfl
  exact ⟨hmem, claim9 "allure-results" _ _ hmem⟩

/-- The attachments shapes line 193 replaces with the empty array: an
absent or falsy value. -/
def attachAbsent (fs : List (String × Json)) : Bool :=
  match lookupField fs "attachments" with
  | some a => !truthyJson a
  | none => true

/-- C10, refuting totality of the attach step: on a discovered record whose
attachments field holds a truthy non-array value, `.find` throws, the
catch of line 203 swallows it, and nothing is attached and nothing written
— so the attach step does not succeed for every discovered record. -/
theorem claim10_counterexample :
    isFailedOrBroken (.obj [("status", .str "failed"), ("attachments", .str "x")]) = true
    ∧ (attachRecord "f" (.obj [("status", .str "failed"), ("attachments", .str "x")])
        "a.txt").2 = []
    ∧ attachmentsArr (attachRecord "f"
        (.obj [("status", .str "failed"), ("attachments", .str "x")]) "a.txt").1
      = [] := by
  exact ⟨rfl, rfl, rfl⟩

/-- C10 (amended): on a record whose attachments field is absent — or any
falsy value — line 193 initializes it to the empty sequence and the attach
step succeeds, appending exactly the one new entry and rewriting the record
file. -/
theorem claim10 (file n : String) (fs : List (String × Json))
    (h : attachAbsent fs = true) :
    (attachRecord file (.obj fs) n).1
        = .obj (setField fs "attachments" (.arr [attachmentEntry n]))
    ∧ (attachRecord file (.obj fs) n).2
        = [(file, stringify2 (.obj (setField fs "attachments"
            (.arr [attachmentEntry n]))))]
    ∧ attachmentsArr (attachRecord file (.obj fs) n).1 = [attachmentEntry n] := by
  unfold attachAbsent at h
  have hatt : (match lookupField fs "attachments" with
      | some a => if truthyJson a then a else Json.arr []
      | none => Json.arr []) = Json.arr [] := by
    cases hl : lookupField fs "attachments" with
    | none => rfl
    | some a =>
      rw [hl] at h
      replace h : (!truthyJson a) = true := h
      simp only [Bool.not_eq_true'] at h
      show (if truthyJson a = true then a else Json.arr []) = Json.arr []
      rw [if_neg (by simp [h])]
  rw [attachRecord_obj, hatt, attachEnsured_new file n fs [] (by simp) (by simp)]
  refine ⟨by simp, by simp, ?_⟩
  show (match lookupField (setField fs "attachments"
      (.arr ([] ++ [attachmentEntry n]))) "attachments" with
    | some (.arr xs) => xs
    | _ => []) = [attachmentEntry n]
  rw [lookupField_setField]
  simp

theorem claim10_witness :
    attachAbsent [("status", Json.str "failed")] = true
    ∧ ((attachRecord "d/a.json" (.obj [("status", Json.str "failed")]) "a.txt").1
        = .obj (setField [("status", Json.str "failed")] "attachments"
            (.arr [attachmentEntry "a.txt"]))
      ∧ (attachRecord "d/a.json" (.obj [("status", Json.str "failed")]) "a.txt").2
        = [("d/a.json", stringify2 (.obj (setField [("status", Json.str "failed")]
            "attachments" (.arr [attachmentEntry "a.txt"]))))]
      ∧ attachmentsArr (attachRecord "d/a.json"
          (.obj [("status", Json.str "failed")]) "a.txt").1
        = [attachmentEntry "a.txt"]) := by
  exact ⟨rfl, claim10 "d/a.json" "a.txt" [("status", Json.str "failed")] rfl⟩

/-- The step lines as the claim describes them: one numbered line per step
of the record, in original order with one-based indices, each followed by
its step-error lines. -/
def specStepBlock (ss : List Json) : List String :=
  ss.enum.flatMap fun p =>
    (natStr (p.1 + 1) ++ ". " ++ jsOr (getField p.2 "name") "<step>" ++ " - "
      ++ jsOr (getField p.2 "status") "unknown") :: stepErrLines p.2

/-- C5: on a record carrying a nonempty steps array (without null elements,
which would crash the builder), the prompt lines contain one one-based
numbered line per step in original order, each followed by the indented
step-error line exactly when that step's status is strictly failed with a
truthy message (`stepErrLines`); and every line of the stack-trace block is
at most 3000 characters, the trace itself being cut to its first 3000. -/
theorem claim5 (json : Json) (ss : List Json)
    (hs : getField json "steps" = some (.arr ss))
    (hnn : ∀ s ∈ ss, isNull s = false) (hne : ss ≠ []) :
    buildPromptLines json
      = .ok (promptPreamble ++ headerLines json ++ errMsgLines json
          ++ ("Steps:" :: specStepBlock ss) ++ traceBlockLines json
          ++ ["---", "Provide the JSON only."])
    ∧ ∀ l ∈ traceBlockLines json, l.length ≤ 3000 := by
  constructor
  · have hlen : ss.length > 0 := by
      cases ss with
      | nil => exact absurd rfl hne
      | cons s rest => simp
    unfold buildPromptLines
    rw [stepsBlock_arr_pos json ss hs hlen, stepLines_spec ss hnn 0]
    rfl
  · intro l hl
    unfold traceBlockLines at hl
    cases hsd : getField json "statusDetails" with
    | none =>
      rw [hsd] at hl
      exact absurd hl (List.not_mem_nil l)
    | some sd =>
      rw [hsd] at hl
      replace hl : l ∈ (if truthyJson sd = true then
          (match getField sd "trace" with
          | some tv =>
            if truthyJson tv = true then ["Stack trace:", strTake (jsString tv) 3000]
            else []
          | none => [])
        else []) := hl
      by_cases ht : truthyJson sd = true
      · rw [if_pos ht] at hl
        cases htr : getField sd "trace" with
        | none =>
          rw [htr] at hl
          exact absurd hl (List.not_mem_nil l)
        | some tv =>
          rw [htr] at hl
          replace hl : l ∈ (if truthyJson tv = true
              then ["Stack trace:", strTake (jsString tv) 3000] else []) := hl
          by_cases htv : truthyJson tv = true
          · rw [if_pos htv] at hl
            rcases List.mem_cons.mp hl with rfl | hl
            · decide
            · rcases List.mem_singleton.mp hl with rfl
              show (String.mk ((jsString tv).data.take 3000)).length ≤ 3000
              rw [show (String.mk ((jsString tv).data.take 3000)).length
                  = ((jsString tv).data.take 3000).length from rfl, List.length_take]
              omega
          · rw [if_neg htv] at hl
            exact absurd hl (List.not_mem_nil l)
      · rw [if_neg ht] at hl
        exact absurd hl (List.not_mem_nil l)

theorem claim5_witness :
    getField (.obj [("name", .str "T"), ("status", .str "failed"),
        ("steps", .arr [.obj [("name", .str "s1"), ("status", .str "passed")],
          .obj [("name", .str "s2"), ("status", .str "failed"),
            ("statusDetails", .obj [("message", .str "boom")])]]),
        ("statusDetails", .obj [("message", .str "boom"), ("trace", .str "tr")])])
        "steps"
      = some (.arr [.obj [("name", .str "s1"), ("status", .str "passed")],
          .obj [("name", .str "s2"), ("status", .str "failed"),
            ("statusDetails", .obj [("message", .str "boom")])]])
    ∧ (buildPromptLines (.obj [("name", .str "T"), ("status", .str "failed"),
          ("steps", .arr [.obj [("name", .str "s1"), ("status", .str "passed")],
            .obj [("name", .str "s2"), ("status", .str "failed"),
              ("statusDetails", .obj [("message", .str "boom")])]]),
          ("statusDetails", .obj [("message", .str "boom"), ("trace", .str "tr")])])
        = .ok (promptPreamble
            ++ headerLines (.obj [("name", .str "T"), ("status", .str "failed"),
              ("steps", .arr [.obj [("name", .str "s1"), ("status", .str "passed")],
                .obj [("name", .str "s2"), ("status", .str "failed"),
                  ("statusDetails", .obj [("message", .str "boom")])]]),
              ("statusDetails", .obj [("message", .str "boom"), ("trace", .str "tr")])])
            ++ errMsgLines (.obj [("name", .str "T"), ("status", .str "failed"),
              ("steps", .arr [.obj [("name", .str "s1"), ("status", .str "passed")],
                .obj [("name", .str "s2"), ("status", .str "failed"),
                  ("statusDetails", .obj [("message", .str "boom")])]]),
              ("statusDetails", .obj [("message", .str "boom"), ("trace", .str "tr")])])
            ++ ("Steps:" :: specStepBlock
              [.obj [("name", .str "s1"), ("status", .str "passed")],
                .obj [("name", .str "s2"), ("status", .str "failed"),
                  ("statusDetails", .obj [("message", .str "boom")])]])
            ++ traceBlockLines (.obj [("name", .str "T"), ("status", .str "failed"),
              ("steps", .arr [.obj [("name", .str "s1"), ("status", .str "passed")],
                .obj [("name", .str "s2"), ("status", .str "failed"),
                  ("statusDetails", .obj [("message", .str "boom")])]]),
              ("statusDetails", .obj [("message", .str "boom"), ("trace", .str "tr")])])
            ++ ["---", "Provide the JSON only."])
        ∧ ∀ l ∈ traceBlockLines (.obj [("name", .str "T"), ("status", .str "failed"),
            ("steps", .arr [.obj [("name", .str "s1"), ("status", .str "passed")],
              .obj [("name", .str "s2"), ("status", .str "failed"),
                ("statusDetails", .obj [("message", .str "boom")])]]),
            ("statusDetails", .obj [("message", .str "boom"), ("trace", .str "tr")])]),
          l.length ≤ 3000) := by
  refine ⟨rfl, claim5 _ _ rfl (by decide) (List.cons_ne_nil _ _)⟩

theorem countP_entry (n : String) : List.countP (isMatch n) [attachmentEntry n] = 1 := by
  rw [List.countP_cons, isMatch_entry]
  rfl

theorem claim4_core (file n : String) (fs : List (String × Json)) (xs : List Json)
    (hatt : (match lookupField fs "attachments" with
        | some a => if truthyJson a = true then a else Json.arr []
        | none => Json.arr []) = .arr xs)
    (hpre : attachmentsArr (.obj fs) = xs)
    (hnn : ∀ a ∈ xs, isNull a = false)
    (hcnt : xs.countP (isMatch n) ≤ 1) :
    (attachRecord file (attachRecord file (.obj fs) n).1 n).1
        = (attachRecord file (.obj fs) n).1
    ∧ (attachRecord file (attachRecord file (.obj fs) n).1 n).2 = []
    ∧ (attachmentsArr (attachRecord file (.obj fs) n).1).countP (isMatch n) = 1
    ∧ ∃ tail, attachmentsArr (attachRecord file (.obj fs) n).1
        = attachmentsArr (.obj fs) ++ tail := by
  cases hany : xs.any (isMatch n) with
  | false =>
    have hr1 : attachRecord file (.obj fs) n
        = (.obj (setField fs "attachments" (.arr (xs ++ [attachmentEntry n]))),
          [(file, stringify2 (.obj (setField fs "attachments"
            (.arr (xs ++ [attachmentEntry n])))))]) := by
      rw [attachRecord_obj, hatt]
      exact attachEnsured_new file n fs xs hnn hany
    have hlk : lookupField (setField fs "attachments"
        (.arr (xs ++ [attachmentEntry n]))) "attachments"
        = some (.arr (xs ++ [attachmentEntry n])) := lookupField_setField fs _ _
    have hnn2 : ∀ a ∈ xs ++ [attachmentEntry n], isNull a = false := by
      intro a ha
      rcases List.mem_append.mp ha with ha | ha
      · exact hnn a ha
      · rcases List.mem_singleton.mp ha with rfl
        rfl
    have hany2 : (xs ++ [attachmentEntry n]).any (isMatch n) = true := by
      rw [List.any_append]
      simp [isMatch_entry]
    have hr2 : attachRecord file (attachRecord file (.obj fs) n).1 n
        = ((attachRecord file (.obj fs) n).1, []) := by
      rw [hr1]
      show attachRecord file (.obj (setField fs "attachments"
        (.arr (xs ++ [attachmentEntry n])))) n = _
      rw [attachRecord_obj, hlk]
      rw [show (match some (Json.arr (xs ++ [attachmentEntry n])) with
          | some a => if truthyJson a = true then a else Json.arr []
          | none => Json.arr []) = Json.arr (xs ++ [attachmentEntry n]) from rfl]
      rw [attachEnsured_already file n _ _ hnn2 hany2,
        setField_self _ _ _ hlk]
    refine ⟨by rw [hr2], by rw [hr2], ?_, ?_⟩
    · rw [hr1]
      show (match lookupField (setField fs "attachments"
          (.arr (xs ++ [attachmentEntry n]))) "attachments" with
        | some (.arr xs) => xs
        | _ => []).countP (isMatch n) = 1
      rw [hlk]
      show (xs ++ [attachmentEntry n]).countP (isMatch n) = 1
      rw [List.countP_append, countP_entry,
        List.countP_eq_zero.mpr]
      intro a ha
      have := (List.any_eq_false.mp hany) a ha
      simp [this]
    · refine ⟨[attachmentEntry n], ?_⟩
      rw [hr1, hpre]
      show (match lookupField (setField fs "attachments"
          (.arr (xs ++ [attachmentEntry n]))) "attachments" with
        | some (.arr xs) => xs
        | _ => []) = xs ++ [attachmentEntry n]
      rw [hlk]
  | true =>
    have hr1 : attachRecord file (.obj fs) n
        = (.obj (setField fs "attachments" (.arr xs)), []) := by
      rw [attachRecord_obj, hatt]
      exact attachEnsured_already file n fs xs hnn hany
    have hlk : lookupField (setField fs "attachments" (.arr xs)) "attachments"
        = some (.arr xs) := lookupField_setField fs _ _
    have hr2 : attachRecord file (attachRecord file (.obj fs) n).1 n
        = ((attachRecord file (.obj fs) n).1, []) := by
      rw [hr1]
      show attachRecord file (.obj (setField fs "attachments" (.arr xs))) n = _
      rw [attachRecord_obj, hlk]
      rw [show (match some (Json.arr xs) with
          | some a => if truthyJson a = true then a else Json.arr []
          | none => Json.arr []) = Json.arr xs from rfl]
      rw [attachEnsured_already file n _ _ hnn hany, setField_self _ _ _ hlk]
    refine ⟨by rw [hr2], by rw [hr2], ?_, ?_⟩
    · rw [hr1]
      show (match lookupField (setField fs "attachments" (.arr xs)) "attachments" with
        | some (.arr xs) => xs
        | _ => []).countP (isMatch n) = 1
      rw [hlk]
      show xs.countP (isMatch n) = 1
      have hpos : 0 < xs.countP (isMatch n) :=
        List.countP_pos_iff.mpr (List.any_eq_true.mp hany)
      omega
    · refine ⟨[], ?_⟩
      rw [hr1, hpre, List.append_nil]
      show (match lookupField (setField fs "attachments" (.arr xs)) "attachments" with
        | some (.arr xs) => xs
        | _ => []) = xs
      rw [hlk]

/-- C4, refuting unconditional attach idempotence: on a record whose
attachments field holds the truthy non-array value 5, `.find` throws, the
throw is swallowed, and even two attach runs leave zero attachments
referencing the analysis file — not exactly one. -/
theorem claim4_counterexample :
    isFailedOrBroken (.obj [("status", .str "failed"), ("attachments", .num 5)]) = true
    ∧ (attachRecord "f" (attachRecord "f"
        (.obj [("status", .str "failed"), ("attachments", .num 5)]) "a.txt").1 "a.txt").2
      = []
    ∧ (attachmentsArr (attachRecord "f" (attachRecord "f"
        (.obj [("status", .str "failed"), ("attachments", .num 5)]) "a.txt").1
          "a.txt").1).countP (isMatch "a.txt") = 0 := by
  exact ⟨rfl, rfl, rfl⟩

/-- C4 (amended): on a record whose attachments value is an array free of
null elements holding at most one reference to the analysis file — or any
falsy value, or no value at all — attaching twice equals attaching once:
the second run changes nothing and writes nothing, exactly one attachment
references the analysis file afterwards, and the previously present
attachments survive in order as a prefix of the new sequence. -/
theorem claim4 (file n : String) (fs : List (String × Json))
    (h : attachReady fs n = true) :
    (attachRecord file (attachRecord file (.obj fs) n).1 n).1
        = (attachRecord file (.obj fs) n).1
    ∧ (attachRecord file (attachRecord file (.obj fs) n).1 n).2 = []
    ∧ (attachmentsArr (attachRecord file (.obj fs) n).1).countP (isMatch n) = 1
    ∧ ∃ tail, attachmentsArr (attachRecord file (.obj fs) n).1
        = attachmentsArr (.obj fs) ++ tail := by
  unfold attachReady at h
  cases hl : lookupField fs "attachments" with
  | none =>
    refine claim4_core file n fs [] ?_ ?_ (by simp) (by simp)
    · rw [hl]
    · show (match lookupField fs "attachments" with
        | some (.arr xs) => xs
        | _ => []) = []
      rw [hl]
  | some a =>
    rw [hl] at h
    cases a with
    | arr xs =>
      replace h : (xs.all (fun a => !isNull a)
          && decide (xs.countP (isMatch n) ≤ 1)) = true := h
      simp only [Bool.and_eq_true, decide_eq_true_eq] at h
      refine claim4_core file n fs xs ?_ ?_ ?_ h.2
      · rw [hl]
        rfl
      · show (match lookupField fs "attachments" with
          | some (.arr xs) => xs
          | _ => []) = xs
        rw [hl]
      · intro a ha
        have := List.all_eq_true.mp h.1 a ha
        simpa using this
    | null =>
      refine claim4_core file n fs [] (by rw [hl]; rfl) ?_ (by simp) (by simp)
      show (match lookupField fs "attachments" with
        | some (.arr xs) => xs
        | _ => []) = []
      rw [hl]
    | bool b =>
      replace h : (!truthyJson (Json.bool b)) = true := h
      refine claim4_core file n fs [] ?_ ?_ (by simp) (by simp)
      · rw [hl]
        show (if truthyJson (Json.bool b) = true then Json.bool b else Json.arr [])
          = Json.arr []
        rw [if_neg (by simp_all)]
      · show (match lookupField fs "attachments" with
          | some (.arr xs) => xs
          | _ => []) = []
        rw [hl]
    | num m =>
      replace h : (!truthyJson (Json.num m)) = true := h
      refine claim4_core file n fs [] ?_ ?_ (by simp) (by simp)
      · rw [hl]
        show (if truthyJson (Json.num m) = true then Json.num m else Json.arr [])
          = Json.arr []
        rw [if_neg (by simp_all)]
      · show (match lookupField fs "attachments" with
          | some (.arr xs) => xs
          | _ => []) = []
        rw [hl]
    | str s =>
      replace h : (!truthyJson (Json.str s)) = true := h
      refine claim4_core file n fs [] ?_ ?_ (by simp) (by simp)
      · rw [hl]
        show (if truthyJson (Json.str s) = true then Json.str s else Json.arr [])
          = Json.arr []
        rw [if_neg (by simp_all)]
      · show (match lookupField fs "attachments" with
          | some (.arr xs) => xs
          | _ => []) = []
        rw [hl]
    | obj gs =>
      replace h : (!truthyJson (Json.obj gs)) = true := h
      exact absurd h (by simp [truthyJson])

theorem claim4_witness :
    attachReady [("status", Json.str "failed"),
        ("attachments", Json.arr [Json.obj [("name", Json.str "screenshot"),
          ("source", Json.str "shot.png"), ("type", Json.str "image/png")]])] "a.txt"
      = true
    ∧ ((attachRecord "f" (attachRecord "f" (.obj [("status", Json.str "failed"),
          ("attachments", Json.arr [Json.obj [("name", Json.str "screenshot"),
            ("source", Json.str "shot.png"), ("type", Json.str "image/png")]])])
          "a.txt").1 "a.txt").1
        = (attachRecord "f" (.obj [("status", Json.str "failed"),
          ("attachments", Json.arr [Json.obj [("name", Json.str "screenshot"),
            ("source", Json.str "shot.png"), ("type", Json.str "image/png")]])])
          "a.txt").1
      ∧ (attachRecord "f" (attachRecord "f" (.obj [("status", Json.str "failed"),
          ("attachments", Json.arr [Json.obj [("name", Json.str "screenshot"),
            ("source", Json.str "shot.png"), ("type", Json.str "image/png")]])])
          "a.txt").1 "a.txt").2 = []
      ∧ (attachmentsArr (attachRecord "f" (.obj [("status", Json.str "failed"),
          ("attachments", Json.arr [Json.obj [("name", Json.str "screenshot"),
            ("source", Json.str "shot.png"), ("type", Json.str "image/png")]])])
          "a.txt").1).countP (isMatch "a.txt") = 1
      ∧ ∃ tail, attachmentsArr (attachRecord "f" (.obj [("status", Json.str "failed"),
          ("attachments", Json.arr [Json.obj [("name", Json.str "screenshot"),
            ("source", Json.str "shot.png"), ("type", Json.str "image/png")]])])
          "a.txt").1
        = attachmentsArr (.obj [("status", Json.str "failed"),
          ("attachments", Json.arr [Json.obj [("name", Json.str "screenshot"),
            ("source", Json.str "shot.png"), ("type", Json.str "image/png")]])])
          ++ tail) := by
  refine ⟨rfl, claim4 "f" "a.txt" _ rfl⟩

end LlmFailureAnalysis
